import Mathlib

/-! # PortionGraph (oovcde/BLL/PortionGraph.cpp)

A shallow embedding of the portion-graph builder of `PortionGraph.cpp`:
the node lookup `getNode`, the entry point `clearAndAddClass` and the three
connection passes (`addConnections`, `addAttrOperConnections`,
`addOperationConnections`), followed by theorems about them.

Conventions of the embedding.

* `mNodes` and `mConnections` are lists; `push_back` appends at the end.
* A `PortionNode const *` into `mNodes` is the position of the node, and the
  null pointer is `none`.
* Pointers into the object model that the code dereferences are options;
  dereferencing `none` ends the build with `Fault.nullDeref`.
* A range-`for` loop is `forEach`, which threads the graph through the loop
  body and stops at the first fault.
-/

namespace PortionGraph

/-! ## The object model, as read by the builder -/

/-- The node kinds used by `PortionGraph.cpp`. -/
inductive PortionNodeTypes where
  | PNT_Attribute
  | PNT_Operation
  | PNT_NonMemberVariable
  deriving DecidableEq, Repr

/-- Modelled from the spec: the statement kinds (`eModelStatementTypes` is declared
in the model headers, which are not among the sources). The builder only ever
compares a statement kind with `ST_Call`. -/
inductive eModelStatementTypes where
  | ST_Call
  | ST_Other
  deriving DecidableEq, Repr

/-- What a statement sees through a `ModelClassifier const *`: the identity of the
classifier object (its address) and its name (`getName()`). -/
structure ModelClassifierRef where
  addr : Nat
  name : String
  deriving DecidableEq, Repr

/-- What a statement sees through the `ModelType const *` of its declaration:
`getClass()`, which is null when the type is not a class. -/
structure ModelTypeRef where
  getClass : Option ModelClassifierRef
  deriving DecidableEq, Repr

/-- A `ModelStatement`, through the accessors the builder calls.
`getDeclType` stands for `getClassDecl().getDeclType()`, a pointer that may be
null. -/
structure ModelStatement where
  getStatementType : eModelStatementTypes
  hasBaseClassMemberRef : Bool
  getFuncName : String
  getDeclType : Option ModelTypeRef
  deriving DecidableEq, Repr

/-- A `ModelStatements` sequence: the statements in order, and the query
`checkAttrUsed(attrName)`, which is defined in the model library and is taken
here as given. -/
structure ModelStatements where
  stmts : List ModelStatement
  checkAttrUsed : String → Bool

/-- A `ModelAttribute`. -/
structure ModelAttribute where
  getName : String
  deriving DecidableEq, Repr

/-- A `ModelOperation`. -/
structure ModelOperation where
  getName : String
  getStatements : ModelStatements

/-- A `ModelClassifier`: its identity (address), its name, and its attributes
and operations in declaration order. -/
structure ModelClassifier where
  addr : Nat
  getName : String
  getAttributes : List ModelAttribute
  getOperations : List ModelOperation

/-- A `ModelType` as returned by `findType`: `getClass()` is null when the type
is not a class. -/
structure ModelType where
  getClass : Option ModelClassifier

/-- The `ModelData` behind `mModel`: only `findType` is used. -/
structure ModelData where
  findType : String → Option ModelType

/-- Modelled from the spec: `ModelClassifier::getOperationAnyConst(name, isConst)` is
defined in the model library, not among the sources. The spec describes it as
a non-overload-aware lookup: the first operation of the class with that name,
ignoring parameter signatures (and constness). -/
def ModelClassifier.getOperationAnyConst (cls : ModelClassifier) (name : String)
    (_isConst : Bool) : Option ModelOperation :=
  cls.getOperations.find? (fun o => decide (o.getName = name))

/-! ## The graph -/

/-- A `PortionNode`. -/
structure PortionNode where
  getName : String
  getNodeType : PortionNodeTypes
  deriving DecidableEq, Repr

/-- A `PortionConnection(supplierIndex, consumerIndex)`. -/
structure PortionConnection where
  supplierIndex : Nat
  consumerIndex : Nat
  deriving DecidableEq, Repr

/-- The mutable state of a `PortionGraph`: `mNodes` and `mConnections`. -/
structure Graph where
  mNodes : List PortionNode
  mConnections : List PortionConnection
  deriving DecidableEq, Repr

/-- A newly constructed graph. -/
def Graph.empty : Graph := ⟨[], []⟩

/-- The ways a build can end abnormally. -/
inductive Fault where
  /-- a null `ModelType` or `ModelClassifier` pointer was dereferenced -/
  | nullDeref
  /-- `getNodeIndex` was applied to the null node pointer -/
  | nullNode
  deriving DecidableEq, Repr

/-- Position of the first node of `nodes` with this kind and name (the loop of
`PortionGraph::getNode`, lines 14-21). -/
def findNode (name : String) (nt : PortionNodeTypes) : List PortionNode → Option Nat
  | [] => none
  | node :: rest =>
    if node.getNodeType = nt ∧ node.getName = name then some 0
    else (findNode name nt rest).map (· + 1)

/-- `PortionGraph::getNode`: a pointer to the first matching node, or null. -/
def getNode (g : Graph) (name : String) (nt : PortionNodeTypes) : Option Nat :=
  findNode name nt g.mNodes

/-- Modelled from the spec: `PortionGraph::getNodeIndex` is defined in
`PortionGraph.h`, not among the sources. It turns a node pointer into the
node's index in the node list; for the null pointer no index exists. -/
def getNodeIndex (node : Option Nat) : Except Fault Nat :=
  match node with
  | some i => .ok i
  | none => .error .nullNode

/-- `mNodes.push_back(node)`. -/
def Graph.pushNode (g : Graph) (node : PortionNode) : Graph :=
  { g with mNodes := g.mNodes ++ [node] }

/-- `mConnections.push_back(conn)`. -/
def Graph.pushConnection (g : Graph) (conn : PortionConnection) : Graph :=
  { g with mConnections := g.mConnections ++ [conn] }

/-- A range-`for` loop over `xs` whose body may fault. -/
def forEach {α : Type} (body : Graph → α → Except Fault Graph) :
    Graph → List α → Except Fault Graph
  | g, [] => .ok g
  | g, x :: rest =>
    match body g x with
    | .ok g1 => forEach body g1 rest
    | .error e => .error e

/-! ## The builder -/

/-- Body of the statement loop of `clearAndAddClass` (lines 46-71), for one
statement of the operation named `operName`. -/
def extRefStatement (operName : String) (g : Graph) (stmt : ModelStatement) :
    Except Fault Graph :=
  if stmt.hasBaseClassMemberRef then
    if (getNode g stmt.getFuncName .PNT_Operation).isNone then
      match stmt.getDeclType with
      | none => .error .nullDeref
      | some declType =>
        match declType.getClass with
        | none => .error .nullDeref
        | some calledClass =>
          if calledClass.name.length > 0 then
            let g1 :=
              if (getNode g calledClass.name .PNT_NonMemberVariable).isNone then
                g.pushNode ⟨calledClass.name, .PNT_NonMemberVariable⟩
              else g
            match getNodeIndex (getNode g1 calledClass.name .PNT_NonMemberVariable) with
            | .error e => .error e
            | .ok supIndex =>
              match getNodeIndex (getNode g1 operName .PNT_Operation) with
              | .error e => .error e
              | .ok consIndex => .ok (g1.pushConnection ⟨supIndex, consIndex⟩)
          else .ok g
    else .ok g
  else .ok g

/-- Body of the operation loop of lines 41-73. -/
def extRefOperation (g : Graph) (oper : ModelOperation) : Except Fault Graph :=
  forEach (extRefStatement oper.getName) g oper.getStatements.stmts

/-- Body of the loop of `addAttrOperConnections` (lines 98-107). -/
def attrOperBody (attrName : String) (g : Graph) (oper : ModelOperation) :
    Except Fault Graph :=
  if oper.getStatements.checkAttrUsed attrName then
    match getNodeIndex (getNode g attrName .PNT_Attribute) with
    | .error e => .error e
    | .ok supIndex =>
      match getNodeIndex (getNode g oper.getName .PNT_Operation) with
      | .error e => .error e
      | .ok consIndex => .ok (g.pushConnection ⟨supIndex, consIndex⟩)
  else .ok g

/-- `PortionGraph::addAttrOperConnections`. -/
def addAttrOperConnections (g : Graph) (attrName : String)
    (opers : List ModelOperation) : Except Fault Graph :=
  forEach (attrOperBody attrName) g opers

/-- Modelled from the spec: `DebugAssert(__FILE__, __LINE__)` is declared in `Debug.h`,
not among the sources. The spec describes it as a non-fatal diagnostic
assertion for developer visibility: it reports and returns, so the graph is
as before and the build goes on. -/
def DebugAssert (g : Graph) : Except Fault Graph := .ok g

/-- Body of the loop of `addOperationConnections` (lines 115-134). A failed
callee lookup reaches `DebugAssert` (line 131). -/
def operationBody (classifier : ModelClassifier) (callerOperNode : Option Nat)
    (g : Graph) (stmt : ModelStatement) : Except Fault Graph :=
  if stmt.getStatementType = .ST_Call then
    match stmt.getDeclType with
    | none => .error .nullDeref
    | some declType =>
      if (declType.getClass.map (·.addr)) = some classifier.addr then
        match classifier.getOperationAnyConst stmt.getFuncName false with
        | some oper =>
          match getNodeIndex (getNode g oper.getName .PNT_Operation) with
          | .error e => .error e
          | .ok supIndex =>
            match getNodeIndex callerOperNode with
            | .error e => .error e
            | .ok consIndex => .ok (g.pushConnection ⟨supIndex, consIndex⟩)
        | none => DebugAssert g
      else .ok g
  else .ok g

/-- `PortionGraph::addOperationConnections`. -/
def addOperationConnections (g : Graph) (classifier : ModelClassifier)
    (statements : ModelStatements) (callerOperNode : Option Nat) : Except Fault Graph :=
  forEach (operationBody classifier callerOperNode) g statements.stmts

/-- `PortionGraph::addConnections`. -/
def addConnections (g : Graph) (cls : ModelClassifier) : Except Fault Graph :=
  match forEach (fun g attr => addAttrOperConnections g attr.getName cls.getOperations)
      g cls.getAttributes with
  | .error e => .error e
  | .ok g1 =>
    forEach (fun g oper =>
        addOperationConnections g cls oper.getStatements (getNode g oper.getName .PNT_Operation))
      g1 cls.getOperations

/-- The two population loops of `clearAndAddClass` (lines 33-40). -/
def addClassNodes (g : Graph) (cls : ModelClassifier) : Graph :=
  let g1 := cls.getAttributes.foldl (fun g attr => g.pushNode ⟨attr.getName, .PNT_Attribute⟩) g
  cls.getOperations.foldl (fun g oper => g.pushNode ⟨oper.getName, .PNT_Operation⟩) g1

/-- The external-reference loops of `clearAndAddClass` (lines 41-73). -/
def addExternalReferences (g : Graph) (cls : ModelClassifier) : Except Fault Graph :=
  forEach extRefOperation g cls.getOperations

/-- `PortionGraph::clearAndAddClass`, run on the graph `g` with the model
`mModel`. -/
def clearAndAddClass (mModel : ModelData) (g : Graph) (classname : String) :
    Except Fault Graph :=
  match mModel.findType classname with
  | none => .ok g
  | some type =>
    match type.getClass with
    | none => .ok g
    | some cls =>
      match addExternalReferences (addClassNodes g cls) cls with
      | .error e => .error e
      | .ok g1 => addConnections g1 cls

/-! ## Descriptions of the result -/

/-- The nodes pushed by the population loops, in order. -/
def classNodes (cls : ModelClassifier) : List PortionNode :=
  cls.getAttributes.map (fun attr => ⟨attr.getName, .PNT_Attribute⟩) ++
    cls.getOperations.map (fun oper => ⟨oper.getName, .PNT_Operation⟩)

/-- The graph `g` has a connection whose supplier index holds the node `supplier`
and whose consumer index holds the node `consumer`. -/
def Graph.hasConnection (g : Graph) (supplier consumer : PortionNode) : Prop :=
  ∃ c ∈ g.mConnections,
    g.mNodes[c.supplierIndex]? = some supplier ∧ g.mNodes[c.consumerIndex]? = some consumer

instance (g : Graph) (supplier consumer : PortionNode) :
    Decidable (g.hasConnection supplier consumer) := by
  unfold Graph.hasConnection
  infer_instance

/-- Every connection of `g` refers to positions of the node list. -/
def Graph.ValidEdges (g : Graph) : Prop :=
  ∀ c ∈ g.mConnections, c.supplierIndex < g.mNodes.length ∧ c.consumerIndex < g.mNodes.length

instance (g : Graph) : Decidable g.ValidEdges := by
  unfold Graph.ValidEdges
  infer_instance

/-- State of the graph during the external-reference loops of a build of `cls`
on a new graph: the class nodes, then distinct external-reference nodes, and
connections from an external-reference node to an operation node, each index
being the first position of its node. -/
def ExtInv (cls : ModelClassifier) (g : Graph) : Prop :=
  ∃ ext : List PortionNode,
    g.mNodes = classNodes cls ++ ext ∧
    (∀ n ∈ ext, n.getNodeType = .PNT_NonMemberVariable) ∧
    ext.Nodup ∧
    ∀ c ∈ g.mConnections, ∃ b h,
      findNode b .PNT_NonMemberVariable g.mNodes = some c.supplierIndex ∧
      findNode h .PNT_Operation g.mNodes = some c.consumerIndex

/-- The graph `g1` extends `g`: both lists of `g` are prefixes of those of `g1`. -/
def Extends (g g1 : Graph) : Prop :=
  g.mNodes <+: g1.mNodes ∧ g.mConnections <+: g1.mConnections

/-- The connection list appended by the body of `addAttrOperConnections` for one
operation, when the node list is `nodes`. -/
def attrOperConns (nodes : List PortionNode) (attrName : String) (oper : ModelOperation) :
    List PortionConnection :=
  if oper.getStatements.checkAttrUsed attrName then
    match findNode attrName .PNT_Attribute nodes, findNode oper.getName .PNT_Operation nodes with
    | some supIndex, some consIndex => [⟨supIndex, consIndex⟩]
    | _, _ => []
  else []

/-- The statement is a call declared on the classifier itself. -/
def isCallOn (classifier : ModelClassifier) (stmt : ModelStatement) : Prop :=
  stmt.getStatementType = .ST_Call ∧
    ∃ t c, stmt.getDeclType = some t ∧ t.getClass = some c ∧ c.addr = classifier.addr

/-- The connection list appended by the body of `addOperationConnections` for one
statement, when the node list is `nodes` and the caller node is `callerOperNode`. -/
def callConns (classifier : ModelClassifier) (nodes : List PortionNode)
    (callerOperNode : Option Nat) (stmt : ModelStatement) : List PortionConnection :=
  if stmt.getStatementType = .ST_Call then
    match stmt.getDeclType with
    | none => []
    | some declType =>
      if (declType.getClass.map (·.addr)) = some classifier.addr then
        match classifier.getOperationAnyConst stmt.getFuncName false with
        | some oper =>
          match findNode oper.getName .PNT_Operation nodes, callerOperNode with
          | some supIndex, some consIndex => [⟨supIndex, consIndex⟩]
          | _, _ => []
        | none => []
      else []
  else []

/-- The connections appended by the attribute loop of `addConnections`. -/
def attrPassConns (cls : ModelClassifier) (nodes : List PortionNode) : List PortionConnection :=
  cls.getAttributes.flatMap (fun attr =>
    cls.getOperations.flatMap (attrOperConns nodes attr.getName))

/-- The connections appended by the operation loop of `addConnections`. -/
def callPassConns (cls : ModelClassifier) (nodes : List PortionNode) : List PortionConnection :=
  cls.getOperations.flatMap (fun oper =>
    oper.getStatements.stmts.flatMap
      (callConns cls nodes (findNode oper.getName .PNT_Operation nodes)))

/-- The connection list appended by the body of the statement loop of lines
44-72 for one statement of the operation `operName`, read on the node list
`nodes` the pass ends with. -/
def extRefConns (nodes : List PortionNode) (operName : String) (stmt : ModelStatement) :
    List PortionConnection :=
  if stmt.hasBaseClassMemberRef then
    if (findNode stmt.getFuncName .PNT_Operation nodes).isNone then
      match stmt.getDeclType with
      | none => []
      | some declType =>
        match declType.getClass with
        | none => []
        | some calledClass =>
          if calledClass.name.length > 0 then
            match findNode calledClass.name .PNT_NonMemberVariable nodes,
              findNode operName .PNT_Operation nodes with
            | some supIndex, some consIndex => [⟨supIndex, consIndex⟩]
            | _, _ => []
          else []
    else []
  else []

/-- The connections appended by the external-reference loops of
`clearAndAddClass`: operation by operation, statement by statement. -/
def extPassConns (cls : ModelClassifier) (nodes : List PortionNode) : List PortionConnection :=
  cls.getOperations.flatMap (fun oper =>
    oper.getStatements.stmts.flatMap (extRefConns nodes oper.getName))

/-- The node list of `g1` is the node list of `g` followed by external-reference
nodes only. -/
def GrowsExt (g g1 : Graph) : Prop :=
  ∃ more : List PortionNode,
    g1.mNodes = g.mNodes ++ more ∧ ∀ n ∈ more, n.getNodeType = .PNT_NonMemberVariable

instance (classifier : ModelClassifier) (stmt : ModelStatement) :
    Decidable (isCallOn classifier stmt) :=
  decidable_of_iff
    (stmt.getStatementType = .ST_Call ∧
      (stmt.getDeclType.bind (·.getClass)).map (·.addr) = some classifier.addr)
    (by
      unfold isCallOn
      constructor
      · rintro ⟨h1, h2⟩
        refine ⟨h1, ?_⟩
        rcases Option.eq_none_or_eq_some stmt.getDeclType with ht | ⟨t, ht⟩
        · simp [ht] at h2
        · rcases Option.eq_none_or_eq_some t.getClass with hc | ⟨c, hc⟩
          · simp [ht, hc] at h2
          · simp [ht, hc] at h2
            exact ⟨t, c, ht, hc, h2⟩
      · rintro ⟨h1, t, c, ht, hc, h3⟩
        exact ⟨h1, by simp [ht, hc, h3]⟩)

/-- The statement is a qualifying base-class member reference that resolves to
the class named `b`: it has a base-class member reference, its function name
is not the name of an operation of `cls`, and its declared type is a class
whose name is `b`, not empty. -/
def IsExternalRefTo (cls : ModelClassifier) (b : String) (stmt : ModelStatement) : Prop :=
  stmt.hasBaseClassMemberRef = true ∧
    (∀ o ∈ cls.getOperations, o.getName ≠ stmt.getFuncName) ∧
    (stmt.getDeclType.bind (·.getClass)).map (·.name) = some b ∧ 0 < b.length

instance (cls : ModelClassifier) (b : String) (stmt : ModelStatement) :
    Decidable (IsExternalRefTo cls b stmt) := by
  unfold IsExternalRefTo
  infer_instance

/-- The connection `c` joins the node `supplier` to the node `consumer` in the node
list `nodes`: its supplier index holds `supplier`, its consumer index holds
`consumer`. -/
def joins (nodes : List PortionNode) (supplier consumer : PortionNode)
    (c : PortionConnection) : Bool :=
  decide (nodes[c.supplierIndex]? = some supplier ∧ nodes[c.consumerIndex]? = some consumer)

/-- Number of connections of `g` whose supplier index holds the node `supplier`
and whose consumer index holds the node `consumer`. -/
def Graph.connectionCount (g : Graph) (supplier consumer : PortionNode) : Nat :=
  g.mConnections.countP (joins g.mNodes supplier consumer)

/-- The property of attribute-usage completeness for the class `cls` and the
graph `g`: for every attribute and every operation of the class, there is a
connection from the attribute's node to the operation's node exactly when the
statements of the operation use the attribute. -/
def AttrUsageComplete (cls : ModelClassifier) (g : Graph) : Prop :=
  ∀ attr ∈ cls.getAttributes, ∀ oper ∈ cls.getOperations,
    (g.hasConnection ⟨attr.getName, .PNT_Attribute⟩ ⟨oper.getName, .PNT_Operation⟩ ↔
      oper.getStatements.checkAttrUsed attr.getName = true)

instance (cls : ModelClassifier) (g : Graph) : Decidable (AttrUsageComplete cls g) := by
  unfold AttrUsageComplete
  infer_instance

/-! ## Sample models -/

/-- Statements without content, using no attribute. -/
def noStatements : ModelStatements := ⟨[], fun _ => false⟩

/-- A model holding the single class `cls` under its own name. -/
def modelOf (cls : ModelClassifier) : ModelData :=
  ⟨fun n => if n = cls.getName then some ⟨some cls⟩ else none⟩

/-- A call of `callee` declared on the class at address `addr` named `cname`. -/
def callStmt (addr : Nat) (cname callee : String) : ModelStatement :=
  ⟨.ST_Call, false, callee, some ⟨some ⟨addr, cname⟩⟩⟩

/-- Operation `f`, which uses the attribute `a` and calls nothing. -/
def operF : ModelOperation := ⟨"f", ⟨[], fun n => decide (n = "a")⟩⟩

/-- Operation `g`, which calls `f` of the class at address 1. -/
def operG : ModelOperation := ⟨"g", ⟨[callStmt 1 "C" "f"], fun _ => false⟩⟩

/-- Attributes `a`, `b`; operations `f` (uses `a`) and `g` (calls `f`). -/
def sampleClass : ModelClassifier :=
  { addr := 1, getName := "C",
    getAttributes := [⟨"a"⟩, ⟨"b"⟩],
    getOperations := [operF, operG] }

/-- The graph built for `sampleClass`. -/
def sampleGraph : Graph :=
  ⟨[⟨"a", .PNT_Attribute⟩, ⟨"b", .PNT_Attribute⟩, ⟨"f", .PNT_Operation⟩,
    ⟨"g", .PNT_Operation⟩], [⟨0, 2⟩, ⟨2, 3⟩]⟩


/-- Two operations named `f` (overloads), no attribute. -/
def overloadClass : ModelClassifier :=
  { addr := 1, getName := "C", getAttributes := [],
    getOperations := [⟨"f", noStatements⟩, ⟨"f", noStatements⟩] }

/-- Attribute `a` and two operations named `f`; only the first one uses `a`. -/
def overloadUseClass : ModelClassifier :=
  { addr := 1, getName := "C", getAttributes := [⟨"a"⟩],
    getOperations := [⟨"f", ⟨[], fun n => decide (n = "a")⟩⟩, ⟨"f", noStatements⟩] }

/-- A reference to the inherited member `member` of the class `base` at `addr`. -/
def baseRefStmt (addr : Nat) (base member : String) : ModelStatement :=
  ⟨.ST_Call, true, member, some ⟨some ⟨addr, base⟩⟩⟩

/-- Operation `h`, which refers to `Base::helper`. -/
def operH : ModelOperation := ⟨"h", ⟨[baseRefStmt 2 "Base" "helper"], fun _ => false⟩⟩

/-- A class whose only operation `h` refers to `Base::helper`, which is not an
operation of the class. -/
def derivedClass : ModelClassifier :=
  { addr := 1, getName := "C", getAttributes := [], getOperations := [operH] }

/-- A class at address 1 named `C` whose only operation `h` has the single
statement `stmt`. -/
def oneStatementClass (stmt : ModelStatement) : ModelClassifier :=
  { addr := 1, getName := "C", getAttributes := [],
    getOperations := [⟨"h", ⟨[stmt], fun _ => false⟩⟩] }

/-- Operation `h` has a base-class member reference whose declared type is absent. -/
def danglingClass : ModelClassifier :=
  oneStatementClass ⟨.ST_Other, true, "helper", none⟩

/-- A model that knows the type `int`, which is not a class, and nothing else. -/
def intOnlyModel : ModelData :=
  ⟨fun n => if n = "int" then some ⟨none⟩ else none⟩

/-- Operations `h` and `helper`; `h` refers to the inherited `Base::helper`, whose
name is also the name of an operation of the class. -/
def shadowClass : ModelClassifier :=
  { addr := 1, getName := "C", getAttributes := [],
    getOperations := [operH, ⟨"helper", noStatements⟩] }

/-- Operation `f`, and operation `g` that first calls `missing`, which is not an
operation of the class, and then calls `f`. -/
def unresolvedClass : ModelClassifier :=
  { addr := 1, getName := "C", getAttributes := [],
    getOperations :=
      [⟨"f", noStatements⟩,
       ⟨"g", ⟨[callStmt 1 "C" "missing", callStmt 1 "C" "f"], fun _ => false⟩⟩] }

/-- The class `unresolvedClass` without the call of `missing`. -/
def resolvedClass : ModelClassifier :=
  { addr := 1, getName := "C", getAttributes := [],
    getOperations :=
      [⟨"f", noStatements⟩, ⟨"g", ⟨[callStmt 1 "C" "f"], fun _ => false⟩⟩] }

/-- Operations `h` and `k` both refer to members of `Base`, `h` twice. -/
def twoRefsClass : ModelClassifier :=
  { addr := 1, getName := "C", getAttributes := [],
    getOperations :=
      [⟨"h", ⟨[baseRefStmt 2 "Base" "helper", baseRefStmt 2 "Base" "other"], fun _ => false⟩⟩,
       ⟨"k", ⟨[baseRefStmt 2 "Base" "helper"], fun _ => false⟩⟩] }

/-- Attribute `a` and two operations named `f`, both using `a`; the second one
calls `f`. -/
def overloadCallClass : ModelClassifier :=
  { addr := 1, getName := "C", getAttributes := [⟨"a"⟩],
    getOperations :=
      [⟨"f", ⟨[], fun n => decide (n = "a")⟩⟩,
       ⟨"f", ⟨[callStmt 1 "C" "f"], fun n => decide (n = "a")⟩⟩] }

/-- Attribute `a`; operation `h` refers to `Base::helper`; operation `g` uses `a`
and calls `h`. -/
def threePassClass : ModelClassifier :=
  { addr := 1, getName := "C", getAttributes := [⟨"a"⟩],
    getOperations :=
      [operH, ⟨"g", ⟨[callStmt 1 "C" "h"], fun n => decide (n = "a")⟩⟩] }

/-- Operation `f` of `repeatClass`: uses `a` and calls itself. -/
def operRecF : ModelOperation := ⟨"f", ⟨[callStmt 1 "C" "f"], fun n => decide (n = "a")⟩⟩

/-- Operation `g` of `repeatClass`: calls `f` twice and refers to two members of
`Base`. -/
def operRepG : ModelOperation :=
  ⟨"g", ⟨[callStmt 1 "C" "f", baseRefStmt 2 "Base" "helper", callStmt 1 "C" "f",
      baseRefStmt 2 "Base" "other"], fun _ => false⟩⟩

/-- Attribute `a`; `f` uses `a` and calls itself; `g` calls `f` twice and refers
to `Base` twice. -/
def repeatClass : ModelClassifier :=
  { addr := 1, getName := "C", getAttributes := [⟨"a"⟩],
    getOperations := [operRecF, operRepG] }

/-- The graph built for `repeatClass`. -/
def repeatGraph : Graph :=
  ⟨[⟨"a", .PNT_Attribute⟩, ⟨"f", .PNT_Operation⟩, ⟨"g", .PNT_Operation⟩,
    ⟨"Base", .PNT_NonMemberVariable⟩],
    [⟨3, 2⟩, ⟨3, 2⟩, ⟨0, 1⟩, ⟨1, 1⟩, ⟨1, 2⟩, ⟨1, 2⟩]⟩

/-! ## Lookup lemmas -/

theorem findNode_some_iff_mem (name : String) (nt : PortionNodeTypes) (nodes : List PortionNode) :
    (findNode name nt nodes).isSome ↔ (⟨name, nt⟩ : PortionNode) ∈ nodes := by
  induction nodes with
  | nil => simp [findNode]
  | cons node rest ih =>
    obtain ⟨n, k⟩ := node
    by_cases h : k = nt ∧ n = name
    · obtain ⟨rfl, rfl⟩ := h
      simp [findNode]
    · have h2 : ¬ ((⟨name, nt⟩ : PortionNode) = ⟨n, k⟩) := by
        intro e
        injection e with e1 e2
        exact h ⟨e2.symm, e1.symm⟩
      simp only [findNode, h, if_false, Option.isSome_map', ih, List.mem_cons, h2, false_or]

theorem findNode_none_iff (name : String) (nt : PortionNodeTypes) (nodes : List PortionNode) :
    findNode name nt nodes = none ↔ (⟨name, nt⟩ : PortionNode) ∉ nodes := by
  rw [← findNode_some_iff_mem, Option.not_isSome_iff_eq_none]

theorem findNode_getElem (name : String) (nt : PortionNodeTypes) (nodes : List PortionNode) (i : Nat)
    (h : findNode name nt nodes = some i) : nodes[i]? = some ⟨name, nt⟩ := by
  induction nodes generalizing i with
  | nil => simp [findNode] at h
  | cons node rest ih =>
    obtain ⟨n, k⟩ := node
    by_cases hc : k = nt ∧ n = name
    · obtain ⟨rfl, rfl⟩ := hc
      simp [findNode] at h
      subst h
      simp
    · simp only [findNode, hc, if_false, Option.map_eq_some'] at h
      obtain ⟨j, hj, rfl⟩ := h
      simpa using ih j hj

theorem findNode_lt (name : String) (nt : PortionNodeTypes) (nodes : List PortionNode) (i : Nat)
    (h : findNode name nt nodes = some i) : i < nodes.length := by
  have := findNode_getElem name nt nodes i h
  by_contra hlt
  rw [List.getElem?_eq_none (by omega)] at this
  cases this

theorem findNode_first (name : String) (nt : PortionNodeTypes) (nodes : List PortionNode) (i j : Nat)
    (h : findNode name nt nodes = some i) (hj : nodes[j]? = some ⟨name, nt⟩) : i ≤ j := by
  induction nodes generalizing i j with
  | nil => simp [findNode] at h
  | cons node rest ih =>
    obtain ⟨n, k⟩ := node
    by_cases hc : k = nt ∧ n = name
    · obtain ⟨rfl, rfl⟩ := hc
      simp [findNode] at h
      omega
    · simp only [findNode, hc, if_false, Option.map_eq_some'] at h
      obtain ⟨i0, hi0, rfl⟩ := h
      cases j with
      | zero =>
        simp at hj
        exact absurd ⟨hj.2, hj.1⟩ hc
      | succ j0 =>
        have := ih i0 j0 hi0 (by simpa using hj)
        omega

theorem findNode_append (name : String) (nt : PortionNodeTypes) (nodes more : List PortionNode)
    (i : Nat) (h : findNode name nt nodes = some i) : findNode name nt (nodes ++ more) = some i := by
  induction nodes generalizing i with
  | nil => simp [findNode] at h
  | cons node rest ih =>
    obtain ⟨n, k⟩ := node
    by_cases hc : k = nt ∧ n = name
    · simpa [findNode, hc] using h
    · simp only [findNode, hc, if_false, Option.map_eq_some', List.cons_append] at h ⊢
      obtain ⟨i0, hi0, rfl⟩ := h
      exact ⟨i0, ih i0 hi0, rfl⟩

theorem findNode_append_new (name : String) (nt : PortionNodeTypes) (nodes : List PortionNode)
    (h : findNode name nt nodes = none) :
    findNode name nt (nodes ++ [⟨name, nt⟩]) = some nodes.length := by
  induction nodes with
  | nil => simp [findNode]
  | cons node rest ih =>
    obtain ⟨n, k⟩ := node
    by_cases hc : k = nt ∧ n = name
    · simp [findNode, hc] at h
    · simp only [findNode, hc, if_false, Option.map_eq_none', List.cons_append] at h ⊢
      simp [ih h]

theorem findNode_of_count_le_one (name : String) (nt : PortionNodeTypes) (nodes : List PortionNode)
    (j : Nat) (hj : nodes[j]? = some ⟨name, nt⟩) (hc : nodes.count ⟨name, nt⟩ ≤ 1) :
    findNode name nt nodes = some j := by
  induction nodes generalizing j with
  | nil => simp at hj
  | cons node rest ih =>
    obtain ⟨n, k⟩ := node
    by_cases hm : k = nt ∧ n = name
    · obtain ⟨rfl, rfl⟩ := hm
      cases j with
      | zero => simp [findNode]
      | succ j0 =>
        have hmem : (⟨n, k⟩ : PortionNode) ∈ rest := List.getElem?_mem (by simpa using hj)
        have := List.one_le_count_iff.mpr hmem
        simp [List.count_cons] at hc
        omega
    · have hne : ¬ ((⟨n, k⟩ : PortionNode) = ⟨name, nt⟩) := by
        intro e
        injection e with e1 e2
        exact hm ⟨e2, e1⟩
      cases j with
      | zero =>
        simp at hj
        exact absurd ⟨hj.2, hj.1⟩ hm
      | succ j0 =>
        have hc2 : rest.count ⟨name, nt⟩ ≤ 1 := by
          simpa [List.count_cons, hne] using hc
        simp only [findNode, hm, if_false]
        rw [ih j0 (by simpa using hj) hc2]
        rfl

/-! ## Loop lemmas -/

theorem forEach_invariant {α : Type} (body : Graph → α → Except Fault Graph) (P : Graph → Prop)
    (xs : List α) (step : ∀ g x g1, x ∈ xs → P g → body g x = .ok g1 → P g1)
    (g g1 : Graph) (h0 : P g) (h : forEach body g xs = .ok g1) : P g1 := by
  induction xs generalizing g with
  | nil =>
    simp [forEach] at h
    exact h ▸ h0
  | cons x rest ih =>
    simp only [forEach] at h
    cases hb : body g x with
    | error e => simp [hb] at h
    | ok g2 =>
      rw [hb] at h
      exact ih (fun g x g1 hx => step g x g1 (List.mem_cons_of_mem _ hx)) g2
        (step g x g2 (List.mem_cons_self _ _) h0 hb) h


theorem forEach_error {α : Type} (body : Graph → α → Except Fault Graph) (P : Graph → Prop)
    (xs : List α) (step : ∀ g x g1, x ∈ xs → P g → body g x = .ok g1 → P g1)
    (g : Graph) (e : Fault) (h0 : P g) (h : forEach body g xs = .error e) :
    ∃ g1 x, x ∈ xs ∧ P g1 ∧ body g1 x = .error e := by
  induction xs generalizing g with
  | nil => simp [forEach] at h
  | cons x rest ih =>
    simp only [forEach] at h
    cases hb : body g x with
    | error e2 =>
      rw [hb] at h
      cases h
      exact ⟨g, x, List.mem_cons_self _ _, h0, hb⟩
    | ok g2 =>
      rw [hb] at h
      obtain ⟨g1, y, hy, hp, hby⟩ :=
        ih (fun g x g1 hx => step g x g1 (List.mem_cons_of_mem _ hx)) g2
          (step g x g2 (List.mem_cons_self _ _) h0 hb) h
      exact ⟨g1, y, List.mem_cons_of_mem _ hy, hp, hby⟩

theorem forEach_split {α : Type} (body : Graph → α → Except Fault Graph) (P : Graph → Prop)
    (R : Graph → Graph → Prop) (xs : List α)
    (stepP : ∀ g x g1, x ∈ xs → P g → body g x = .ok g1 → P g1)
    (stepR : ∀ g x g1, x ∈ xs → P g → body g x = .ok g1 → R g g1)
    (refl : ∀ g, R g g) (trans : ∀ a b c, R a b → R b c → R a c)
    (g g1 : Graph) (h0 : P g) (h : forEach body g xs = .ok g1) (x : α) (hx : x ∈ xs) :
    ∃ ga gb, P ga ∧ R g ga ∧ body ga x = .ok gb ∧ R gb g1 := by
  induction xs generalizing g with
  | nil => cases hx
  | cons y rest ih =>
    simp only [forEach] at h
    cases hb : body g y with
    | error e => simp [hb] at h
    | ok g2 =>
      rw [hb] at h
      have hP2 := stepP g y g2 (List.mem_cons_self _ _) h0 hb
      have hR2 := stepR g y g2 (List.mem_cons_self _ _) h0 hb
      have hrest : R g2 g1 :=
        forEach_invariant body (fun k => P k ∧ R g2 k) rest
          (fun k z k1 hz hk hbk =>
            ⟨stepP k z k1 (List.mem_cons_of_mem _ hz) hk.1 hbk,
              trans _ _ _ hk.2 (stepR k z k1 (List.mem_cons_of_mem _ hz) hk.1 hbk)⟩)
          g2 g1 ⟨hP2, refl g2⟩ h |>.2
      rcases List.mem_cons.mp hx with rfl | hx2
      · exact ⟨g, g2, h0, refl g, hb, hrest⟩
      · obtain ⟨ga, gb, hpa, hra, hba, hrb⟩ :=
          ih (fun g x g1 hx => stepP g x g1 (List.mem_cons_of_mem _ hx))
            (fun g x g1 hx => stepR g x g1 (List.mem_cons_of_mem _ hx)) g2 hP2 h hx2
        exact ⟨ga, gb, hpa, trans _ _ _ hR2 hra, hba, hrb⟩

theorem Extends.refl (g : Graph) : Extends g g := ⟨List.prefix_refl _, List.prefix_refl _⟩

theorem Extends.trans (a b c : Graph) (h1 : Extends a b) (h2 : Extends b c) : Extends a c :=
  ⟨h1.1.trans h2.1, h1.2.trans h2.2⟩

theorem findNode_prefix (name : String) (nt : PortionNodeTypes) (nodes nodes1 : List PortionNode)
    (i : Nat) (hp : nodes <+: nodes1) (h : findNode name nt nodes = some i) :
    findNode name nt nodes1 = some i := by
  obtain ⟨more, rfl⟩ := hp
  exact findNode_append name nt nodes more i h

theorem findNode_of_mem (name : String) (nt : PortionNodeTypes) (nodes : List PortionNode)
    (h : (⟨name, nt⟩ : PortionNode) ∈ nodes) : ∃ i, findNode name nt nodes = some i :=
  Option.isSome_iff_exists.mp ((findNode_some_iff_mem name nt nodes).mpr h)

/-! ## The population loops -/

theorem foldl_pushNode {α : Type} (f : α → PortionNode) (xs : List α) (g : Graph) :
    xs.foldl (fun g x => g.pushNode (f x)) g = ⟨g.mNodes ++ xs.map f, g.mConnections⟩ := by
  induction xs generalizing g with
  | nil => simp
  | cons x rest ih =>
    rw [List.foldl_cons, ih]
    simp [Graph.pushNode]

theorem addClassNodes_eq (g : Graph) (cls : ModelClassifier) :
    addClassNodes g cls = ⟨g.mNodes ++ classNodes cls, g.mConnections⟩ := by
  simp [addClassNodes, foldl_pushNode, classNodes]

theorem operNode_mem_classNodes (cls : ModelClassifier) (oper : ModelOperation)
    (h : oper ∈ cls.getOperations) :
    (⟨oper.getName, .PNT_Operation⟩ : PortionNode) ∈ classNodes cls := by
  simp only [classNodes, List.mem_append, List.mem_map]
  exact Or.inr ⟨oper, h, rfl⟩

theorem attrNode_mem_classNodes (cls : ModelClassifier) (attr : ModelAttribute)
    (h : attr ∈ cls.getAttributes) :
    (⟨attr.getName, .PNT_Attribute⟩ : PortionNode) ∈ classNodes cls := by
  simp only [classNodes, List.mem_append, List.mem_map]
  exact Or.inl ⟨attr, h, rfl⟩

theorem ExtInv_start (cls : ModelClassifier) : ExtInv cls (addClassNodes Graph.empty cls) := by
  refine ⟨[], ?_, ?_, List.nodup_nil, ?_⟩ <;> simp [addClassNodes_eq, Graph.empty]

/-! ## The external-reference loops -/

/-- What one statement does in the external-reference loop, when it does not fault:
either nothing, or a connection from the (possibly new) node of the declared
class to the node of the enclosing operation. -/
theorem extRefStatement_ok (operName : String) (g g1 : Graph) (stmt : ModelStatement)
    (h : extRefStatement operName g stmt = .ok g1) :
    (g1 = g ∧ ¬ (stmt.hasBaseClassMemberRef = true ∧
        (⟨stmt.getFuncName, .PNT_Operation⟩ : PortionNode) ∉ g.mNodes ∧
        ∃ t c, stmt.getDeclType = some t ∧ t.getClass = some c ∧ 0 < c.name.length)) ∨
    (∃ t c i j, stmt.hasBaseClassMemberRef = true ∧
        (⟨stmt.getFuncName, .PNT_Operation⟩ : PortionNode) ∉ g.mNodes ∧
        stmt.getDeclType = some t ∧ t.getClass = some c ∧ 0 < c.name.length ∧
        findNode operName .PNT_Operation g.mNodes = some j ∧
        ((findNode c.name .PNT_NonMemberVariable g.mNodes = some i ∧
            g1 = ⟨g.mNodes, g.mConnections ++ [⟨i, j⟩]⟩) ∨
         (findNode c.name .PNT_NonMemberVariable g.mNodes = none ∧ i = g.mNodes.length ∧
            g1 = ⟨g.mNodes ++ [⟨c.name, .PNT_NonMemberVariable⟩],
              g.mConnections ++ [⟨i, j⟩]⟩))) := by
  unfold extRefStatement at h
  by_cases hb : stmt.hasBaseClassMemberRef = true
  · rw [if_pos hb] at h
    by_cases hn : (getNode g stmt.getFuncName .PNT_Operation).isNone = true
    · rw [if_pos hn] at h
      have hnot : (⟨stmt.getFuncName, .PNT_Operation⟩ : PortionNode) ∉ g.mNodes :=
        (findNode_none_iff _ _ _).mp (Option.isNone_iff_eq_none.mp hn)
      cases ht : stmt.getDeclType with
      | none => simp [ht] at h
      | some t =>
        cases hc : t.getClass with
        | none => simp [ht, hc] at h
        | some c =>
          simp only [ht, hc] at h
          by_cases hl : c.name.length > 0
          · rw [if_pos hl] at h
            refine Or.inr ⟨t, c, ?_⟩
            cases hx : findNode c.name .PNT_NonMemberVariable g.mNodes with
            | some i =>
              cases hj : findNode operName .PNT_Operation g.mNodes with
              | none => simp [getNode, hx, getNodeIndex, hj] at h
              | some j =>
                simp [getNode, hx, getNodeIndex, hj, Graph.pushConnection] at h
                exact ⟨i, j, hb, hnot, rfl, hc, hl, rfl, Or.inl ⟨rfl, h.symm⟩⟩
            | none =>
              have hnew := findNode_append_new c.name .PNT_NonMemberVariable g.mNodes hx
              cases hj : findNode operName .PNT_Operation
                  (g.mNodes ++ [⟨c.name, .PNT_NonMemberVariable⟩]) with
              | none => simp [getNode, hx, getNodeIndex, hj, Graph.pushNode, hnew] at h
              | some j =>
                simp [getNode, hx, getNodeIndex, hj, Graph.pushNode, hnew,
                  Graph.pushConnection] at h
                have hj0 : findNode operName .PNT_Operation g.mNodes = some j := by
                  have hm := List.getElem?_mem (findNode_getElem _ _ _ _ hj)
                  simp only [List.mem_append, List.mem_singleton] at hm
                  rcases hm with hm | hm
                  · obtain ⟨j0, hj0⟩ := findNode_of_mem _ _ _ hm
                    have := findNode_append _ _ _ [⟨c.name, .PNT_NonMemberVariable⟩] _ hj0
                    rw [this] at hj
                    rw [hj0, hj]
                  · cases hm
                exact ⟨g.mNodes.length, j, hb, hnot, rfl, hc, hl, hj0, Or.inr ⟨rfl, rfl, h.symm⟩⟩
          · rw [if_neg hl] at h
            cases h
            refine Or.inl ⟨rfl, ?_⟩
            rintro ⟨-, -, t2, c2, h1, h2, h3⟩
            cases h1
            rw [hc] at h2
            cases h2
            exact hl h3
    · rw [if_neg hn] at h
      cases h
      refine Or.inl ⟨rfl, ?_⟩
      rintro ⟨-, h2, -⟩
      exact hn (Option.isNone_iff_eq_none.mpr ((findNode_none_iff _ _ _).mpr h2))
  · rw [if_neg hb] at h
    cases h
    exact Or.inl ⟨rfl, fun hh => hb hh.1⟩

theorem extRefStatement_no_nullNode (operName : String) (g : Graph) (stmt : ModelStatement)
    (hop : (⟨operName, .PNT_Operation⟩ : PortionNode) ∈ g.mNodes) :
    extRefStatement operName g stmt ≠ .error .nullNode := by
  obtain ⟨j, hj⟩ := findNode_of_mem _ _ _ hop
  unfold extRefStatement
  split
  · split
    · split
      · simp
      · split
        · simp
        · rename_i c _
          split
          · cases hx : findNode c.name .PNT_NonMemberVariable g.mNodes with
            | some i => simp [getNode, hx, getNodeIndex, hj]
            | none =>
              have hnew := findNode_append_new c.name .PNT_NonMemberVariable g.mNodes hx
              have hj1 := findNode_append _ _ _ [⟨c.name, .PNT_NonMemberVariable⟩] _ hj
              simp [getNode, hx, getNodeIndex, Graph.pushNode, hnew, hj1]
          · simp
    · simp
  · simp

theorem ExtInv.mem_classNodes {cls : ModelClassifier} {g : Graph} (h : ExtInv cls g)
    (n : PortionNode) (hn : n ∈ classNodes cls) : n ∈ g.mNodes := by
  obtain ⟨ext, he, -⟩ := h
  rw [he]
  exact List.mem_append_left _ hn

theorem ExtInv_step (cls : ModelClassifier) (operName : String) (g g1 : Graph)
    (stmt : ModelStatement) (hinv : ExtInv cls g)
    (h : extRefStatement operName g stmt = .ok g1) : ExtInv cls g1 ∧ Extends g g1 := by
  rcases extRefStatement_ok operName g g1 stmt h with ⟨rfl, -⟩ |
    ⟨t, c, i, j, -, -, -, -, -, hj, ⟨hi, rfl⟩ | ⟨hi, rfl, rfl⟩⟩
  · exact ⟨hinv, Extends.refl _⟩
  · refine ⟨?_, List.prefix_refl _, List.prefix_append _ _⟩
    obtain ⟨ext, he, hk, hd, hc⟩ := hinv
    refine ⟨ext, he, hk, hd, ?_⟩
    intro conn hconn
    rcases List.mem_append.mp hconn with hold | hnew
    · exact hc conn hold
    · rw [List.mem_singleton] at hnew
      subst hnew
      exact ⟨c.name, operName, hi, hj⟩
  · refine ⟨?_, List.prefix_append _ _, List.prefix_append _ _⟩
    obtain ⟨ext, he, hk, hd, hc⟩ := hinv
    have hnotin : (⟨c.name, .PNT_NonMemberVariable⟩ : PortionNode) ∉ g.mNodes :=
      (findNode_none_iff _ _ _).mp hi
    refine ⟨ext ++ [⟨c.name, .PNT_NonMemberVariable⟩], ?_, ?_, ?_, ?_⟩
    · simp [he]
    · intro n hn
      rcases List.mem_append.mp hn with hn | hn
      · exact hk n hn
      · rw [List.mem_singleton] at hn
        rw [hn]
    · refine List.Nodup.append hd (List.nodup_singleton _) ?_
      intro n hn1 hn2
      rw [List.mem_singleton] at hn2
      subst hn2
      exact hnotin (by rw [he]; exact List.mem_append_right _ hn1)
    · intro conn hconn
      rcases List.mem_append.mp hconn with hold | hnew
      · obtain ⟨b, h0, hb, hh⟩ := hc conn hold
        exact ⟨b, h0, findNode_append _ _ _ _ _ hb, findNode_append _ _ _ _ _ hh⟩
      · rw [List.mem_singleton] at hnew
        subst hnew
        exact ⟨c.name, operName, findNode_append_new _ _ _ hi, findNode_append _ _ _ _ _ hj⟩

theorem extRefOperation_inv (cls : ModelClassifier) (oper : ModelOperation) (g g1 : Graph)
    (hinv : ExtInv cls g) (h : extRefOperation g oper = .ok g1) :
    ExtInv cls g1 ∧ Extends g g1 :=
  forEach_invariant (extRefStatement oper.getName) (fun k => ExtInv cls k ∧ Extends g k)
    oper.getStatements.stmts
    (fun k stmt k1 _ hk hb =>
      ⟨(ExtInv_step cls oper.getName k k1 stmt hk.1 hb).1,
        Extends.trans _ _ _ hk.2 (ExtInv_step cls oper.getName k k1 stmt hk.1 hb).2⟩)
    g g1 ⟨hinv, Extends.refl g⟩ h

theorem addExternalReferences_inv (cls : ModelClassifier) (g g1 : Graph)
    (hinv : ExtInv cls g) (h : addExternalReferences g cls = .ok g1) :
    ExtInv cls g1 ∧ Extends g g1 :=
  forEach_invariant extRefOperation (fun k => ExtInv cls k ∧ Extends g k)
    cls.getOperations
    (fun k oper k1 _ hk hb =>
      ⟨(extRefOperation_inv cls oper k k1 hk.1 hb).1,
        Extends.trans _ _ _ hk.2 (extRefOperation_inv cls oper k k1 hk.1 hb).2⟩)
    g g1 ⟨hinv, Extends.refl g⟩ h

theorem addExternalReferences_no_nullNode (cls : ModelClassifier) (g : Graph)
    (hinv : ExtInv cls g) : addExternalReferences g cls ≠ .error .nullNode := by
  intro h
  obtain ⟨k, oper, hoper, hk, hb⟩ :=
    forEach_error extRefOperation (ExtInv cls) cls.getOperations
      (fun k oper k1 _ hk hb => (extRefOperation_inv cls oper k k1 hk hb).1) g _ hinv h
  obtain ⟨k2, stmt, -, hk2, hb2⟩ :=
    forEach_error (extRefStatement oper.getName) (ExtInv cls) oper.getStatements.stmts
      (fun k stmt k1 _ hk hb => (ExtInv_step cls oper.getName k k1 stmt hk hb).1) k _ hk hb
  exact extRefStatement_no_nullNode oper.getName k2 stmt
    (hk2.mem_classNodes _ (operNode_mem_classNodes cls oper hoper)) hb2

/-! ## The connection passes of `addConnections` -/

theorem forEach_conns {α : Type} (body : Graph → α → Except Fault Graph)
    (out : List PortionNode → α → List PortionConnection)
    (hbody : ∀ g x g1, body g x = .ok g1 → g1 = ⟨g.mNodes, g.mConnections ++ out g.mNodes x⟩)
    (xs : List α) (g g1 : Graph) (h : forEach body g xs = .ok g1) :
    g1 = ⟨g.mNodes, g.mConnections ++ xs.flatMap (out g.mNodes)⟩ := by
  induction xs generalizing g with
  | nil =>
    simp [forEach] at h
    simp [h]
  | cons x rest ih =>
    simp only [forEach] at h
    cases hb : body g x with
    | error e => simp [hb] at h
    | ok g2 =>
      rw [hb] at h
      have h2 := hbody g x g2 hb
      rw [ih g2 h, h2]
      simp

theorem attrOperBody_ok (attrName : String) (g g1 : Graph) (oper : ModelOperation)
    (h : attrOperBody attrName g oper = .ok g1) :
    g1 = ⟨g.mNodes, g.mConnections ++ attrOperConns g.mNodes attrName oper⟩ := by
  unfold attrOperBody at h
  unfold attrOperConns
  by_cases hu : oper.getStatements.checkAttrUsed attrName = true
  · rw [if_pos hu] at h
    rw [if_pos hu]
    cases hs : findNode attrName .PNT_Attribute g.mNodes with
    | none => simp [getNode, hs, getNodeIndex] at h
    | some i =>
      cases hc : findNode oper.getName .PNT_Operation g.mNodes with
      | none => simp [getNode, hs, hc, getNodeIndex] at h
      | some j =>
        simp [getNode, hs, hc, getNodeIndex, Graph.pushConnection] at h
        simp [← h]
  · rw [if_neg hu] at h
    rw [if_neg hu]
    cases h
    simp

theorem operationBody_ok (classifier : ModelClassifier) (caller : Option Nat) (g g1 : Graph)
    (stmt : ModelStatement) (h : operationBody classifier caller g stmt = .ok g1) :
    g1 = ⟨g.mNodes, g.mConnections ++ callConns classifier g.mNodes caller stmt⟩ := by
  unfold operationBody DebugAssert at h
  unfold callConns
  by_cases hcall : stmt.getStatementType = .ST_Call
  · rw [if_pos hcall] at h
    rw [if_pos hcall]
    cases ht : stmt.getDeclType with
    | none => simp [ht] at h
    | some t =>
      simp only [ht] at h ⊢
      by_cases hsame : (t.getClass.map (·.addr)) = some classifier.addr
      · rw [if_pos hsame] at h
        rw [if_pos hsame]
        cases ho : classifier.getOperationAnyConst stmt.getFuncName false with
        | none =>
          simp only [ho] at h ⊢
          cases h
          simp
        | some oper =>
          simp only [ho] at h ⊢
          cases hs : findNode oper.getName .PNT_Operation g.mNodes with
          | none => simp [getNode, hs, getNodeIndex] at h
          | some i =>
            cases caller with
            | none => simp [getNode, hs, getNodeIndex] at h
            | some j =>
              simp [getNode, hs, getNodeIndex, Graph.pushConnection] at h
              simp [← h]
      · rw [if_neg hsame] at h
        rw [if_neg hsame]
        cases h
        simp
  · rw [if_neg hcall] at h
    rw [if_neg hcall]
    cases h
    simp

theorem addAttrOperConnections_ok (attrName : String) (opers : List ModelOperation)
    (g g1 : Graph) (h : addAttrOperConnections g attrName opers = .ok g1) :
    g1 = ⟨g.mNodes, g.mConnections ++ opers.flatMap (attrOperConns g.mNodes attrName)⟩ :=
  forEach_conns (attrOperBody attrName) (fun nodes oper => attrOperConns nodes attrName oper)
    (fun k oper k1 hk => attrOperBody_ok attrName k k1 oper hk) opers g g1 h

theorem addOperationConnections_ok (cls : ModelClassifier) (statements : ModelStatements)
    (caller : Option Nat) (g g1 : Graph)
    (h : addOperationConnections g cls statements caller = .ok g1) :
    g1 = ⟨g.mNodes, g.mConnections ++ statements.stmts.flatMap (callConns cls g.mNodes caller)⟩ :=
  forEach_conns (operationBody cls caller) (fun nodes stmt => callConns cls nodes caller stmt)
    (fun k stmt k1 hk => operationBody_ok cls caller k k1 stmt hk) statements.stmts g g1 h

theorem addConnections_ok (cls : ModelClassifier) (g g1 : Graph)
    (h : addConnections g cls = .ok g1) :
    g1 = ⟨g.mNodes,
      g.mConnections ++ attrPassConns cls g.mNodes ++ callPassConns cls g.mNodes⟩ := by
  unfold addConnections at h
  cases h1 : forEach (fun (g : Graph) (attr : ModelAttribute) =>
      addAttrOperConnections g attr.getName cls.getOperations) g cls.getAttributes with
  | error e => simp [h1] at h
  | ok g2 =>
    simp only [h1] at h
    have e2 := forEach_conns
      (fun (g : Graph) (attr : ModelAttribute) =>
        addAttrOperConnections g attr.getName cls.getOperations)
      (fun nodes (attr : ModelAttribute) =>
        cls.getOperations.flatMap (attrOperConns nodes attr.getName))
      (fun k attr k1 hk => addAttrOperConnections_ok attr.getName cls.getOperations k k1 hk)
      cls.getAttributes g g2 h1
    have e1 := forEach_conns
      (fun (g : Graph) (oper : ModelOperation) =>
        addOperationConnections g cls oper.getStatements (getNode g oper.getName .PNT_Operation))
      (fun nodes (oper : ModelOperation) =>
        oper.getStatements.stmts.flatMap
          (callConns cls nodes (findNode oper.getName .PNT_Operation nodes)))
      (fun k oper k1 hk =>
        addOperationConnections_ok cls oper.getStatements
          (getNode k oper.getName .PNT_Operation) k k1 hk)
      cls.getOperations g2 g1 h
    rw [e1, e2]
    simp [attrPassConns, callPassConns]

theorem getOperationAnyConst_some (cls : ModelClassifier) (name : String) (isConst : Bool)
    (oper : ModelOperation) (h : cls.getOperationAnyConst name isConst = some oper) :
    oper ∈ cls.getOperations ∧ oper.getName = name := by
  unfold ModelClassifier.getOperationAnyConst at h
  exact ⟨List.mem_of_find?_eq_some h, by simpa using List.find?_some h⟩

theorem getOperationAnyConst_of_mem (cls : ModelClassifier) (isConst : Bool)
    (oper : ModelOperation) (h : oper ∈ cls.getOperations) :
    ∃ o, cls.getOperationAnyConst oper.getName isConst = some o := by
  unfold ModelClassifier.getOperationAnyConst
  cases hf : cls.getOperations.find? (fun o => decide (o.getName = oper.getName)) with
  | some o => exact ⟨o, rfl⟩
  | none =>
    rw [List.find?_eq_none] at hf
    have := hf oper h
    simp at this

theorem attrOperBody_no_nullNode (attrName : String) (g : Graph) (oper : ModelOperation)
    (ha : (⟨attrName, .PNT_Attribute⟩ : PortionNode) ∈ g.mNodes)
    (ho : (⟨oper.getName, .PNT_Operation⟩ : PortionNode) ∈ g.mNodes) (e : Fault) :
    attrOperBody attrName g oper ≠ .error e := by
  obtain ⟨i, hi⟩ := findNode_of_mem _ _ _ ha
  obtain ⟨j, hj⟩ := findNode_of_mem _ _ _ ho
  unfold attrOperBody
  split <;> simp [getNode, hi, hj, getNodeIndex]

theorem operationBody_no_nullNode (cls : ModelClassifier) (caller : Option Nat) (g : Graph)
    (stmt : ModelStatement) (hc : caller.isSome)
    (hn : ∀ n ∈ classNodes cls, n ∈ g.mNodes) :
    operationBody cls caller g stmt ≠ .error .nullNode := by
  obtain ⟨j, rfl⟩ := Option.isSome_iff_exists.mp hc
  unfold operationBody DebugAssert
  split
  · split
    · simp
    · split
      · cases ho : cls.getOperationAnyConst stmt.getFuncName false with
        | none => simp
        | some oper =>
          obtain ⟨i, hi⟩ := findNode_of_mem _ _ _
            (hn _ (operNode_mem_classNodes cls oper (getOperationAnyConst_some _ _ _ _ ho).1))
          simp [getNode, hi, getNodeIndex]
      · simp
  · simp

theorem addConnections_no_nullNode (cls : ModelClassifier) (g : Graph)
    (hn : ∀ n ∈ classNodes cls, n ∈ g.mNodes) : addConnections g cls ≠ .error .nullNode := by
  intro h
  unfold addConnections at h
  cases h1 : forEach (fun (g : Graph) (attr : ModelAttribute) =>
      addAttrOperConnections g attr.getName cls.getOperations) g cls.getAttributes with
  | error e =>
    simp only [h1] at h
    cases h
    obtain ⟨k, attr, hattr, hk, hb⟩ := forEach_error _ (fun k => k.mNodes = g.mNodes) _
      (fun k attr k1 _ hk hb => by
        rw [addAttrOperConnections_ok attr.getName cls.getOperations k k1 hb]
        exact hk) g _ rfl h1
    obtain ⟨k2, oper, hoper, hk2, hb2⟩ := forEach_error (attrOperBody attr.getName)
      (fun k => k.mNodes = g.mNodes) cls.getOperations
      (fun k oper k1 _ hk hb => by
        rw [attrOperBody_ok attr.getName k k1 oper hb]
        exact hk) k _ hk hb
    exact attrOperBody_no_nullNode attr.getName k2 oper
      (hk2 ▸ hn _ (attrNode_mem_classNodes cls attr hattr))
      (hk2 ▸ hn _ (operNode_mem_classNodes cls oper hoper)) _ hb2
  | ok g2 =>
    simp only [h1] at h
    have hg2 : g2.mNodes = g.mNodes := by
      rw [forEach_conns
        (fun (g : Graph) (attr : ModelAttribute) =>
          addAttrOperConnections g attr.getName cls.getOperations)
        (fun nodes (attr : ModelAttribute) =>
          cls.getOperations.flatMap (attrOperConns nodes attr.getName))
        (fun k attr k1 hk => addAttrOperConnections_ok attr.getName cls.getOperations k k1 hk)
        cls.getAttributes g g2 h1]
    obtain ⟨k, oper, hoper, hk, hb⟩ := forEach_error _ (fun k => k.mNodes = g.mNodes) _
      (fun k oper k1 _ hk hb => by
        rw [addOperationConnections_ok cls oper.getStatements _ k k1 hb]
        exact hk) g2 _ hg2 h
    obtain ⟨k2, stmt, -, hk2, hb2⟩ := forEach_error
      (operationBody cls (getNode k oper.getName .PNT_Operation))
      (fun k => k.mNodes = g.mNodes) oper.getStatements.stmts
      (fun k3 stmt k1 _ hk3 hb3 => by
        rw [operationBody_ok cls _ k3 k1 stmt hb3]
        exact hk3) k _ hk hb
    refine operationBody_no_nullNode cls _ k2 stmt ?_ (fun n hnn => hk2 ▸ hn n hnn) hb2
    rw [getNode, hk]
    exact (findNode_some_iff_mem _ _ _).mpr (hn _ (operNode_mem_classNodes cls oper hoper))

/-! ## The whole build -/

theorem clearAndAddClass_class (mModel : ModelData) (g : Graph) (classname : String)
    (type : ModelType) (cls : ModelClassifier)
    (hT : mModel.findType classname = some type) (hC : type.getClass = some cls) :
    clearAndAddClass mModel g classname =
      match addExternalReferences (addClassNodes g cls) cls with
      | .error e => .error e
      | .ok g1 => addConnections g1 cls := by
  simp [clearAndAddClass, hT, hC]

/-- Shape of the result of a build of the class `cls` on a new graph: the
external-reference loops leave a graph `g1` satisfying `ExtInv`, and
`addConnections` appends the attribute connections and then the call
connections, computed on the final node list. -/
theorem clearAndAddClass_shape (mModel : ModelData) (classname : String)
    (type : ModelType) (cls : ModelClassifier) (g : Graph)
    (hT : mModel.findType classname = some type) (hC : type.getClass = some cls)
    (h : clearAndAddClass mModel Graph.empty classname = .ok g) :
    ∃ g1, addExternalReferences (addClassNodes Graph.empty cls) cls = .ok g1 ∧
      ExtInv cls g1 ∧ g.mNodes = g1.mNodes ∧
      g.mConnections =
        g1.mConnections ++ attrPassConns cls g.mNodes ++ callPassConns cls g.mNodes := by
  rw [clearAndAddClass_class mModel _ classname type cls hT hC] at h
  cases h1 : addExternalReferences (addClassNodes Graph.empty cls) cls with
  | error e => simp [h1] at h
  | ok g1 =>
    simp only [h1] at h
    have := addConnections_ok cls g1 g h
    refine ⟨g1, rfl, (addExternalReferences_inv cls _ g1 (ExtInv_start cls) h1).1, ?_, ?_⟩
    · rw [this]
    · rw [this]

theorem mem_attrOperConns (nodes : List PortionNode) (attrName : String) (oper : ModelOperation)
    (c : PortionConnection) :
    c ∈ attrOperConns nodes attrName oper ↔
      oper.getStatements.checkAttrUsed attrName = true ∧
      findNode attrName .PNT_Attribute nodes = some c.supplierIndex ∧
      findNode oper.getName .PNT_Operation nodes = some c.consumerIndex := by
  obtain ⟨s, k⟩ := c
  unfold attrOperConns
  by_cases hu : oper.getStatements.checkAttrUsed attrName = true
  · rw [if_pos hu]
    cases hs : findNode attrName .PNT_Attribute nodes with
    | none => simp
    | some i =>
      cases hc : findNode oper.getName .PNT_Operation nodes with
      | none => simp
      | some j => simp [hu, eq_comm]
  · rw [if_neg hu]
    simp [hu]

theorem mem_callConns (cls : ModelClassifier) (nodes : List PortionNode) (caller : Option Nat)
    (stmt : ModelStatement) (c : PortionConnection) :
    c ∈ callConns cls nodes caller stmt ↔
      isCallOn cls stmt ∧
      (∃ oper, cls.getOperationAnyConst stmt.getFuncName false = some oper ∧
        findNode oper.getName .PNT_Operation nodes = some c.supplierIndex) ∧
      caller = some c.consumerIndex := by
  obtain ⟨s, k⟩ := c
  unfold callConns isCallOn
  by_cases hcall : stmt.getStatementType = .ST_Call
  · rw [if_pos hcall]
    cases ht : stmt.getDeclType with
    | none => simp
    | some t =>
      by_cases hsame : (t.getClass.map (·.addr)) = some cls.addr
      · have hex : ∃ t1 c1, some t = some t1 ∧ t1.getClass = some c1 ∧ c1.addr = cls.addr := by
          cases hc : t.getClass with
          | none => simp [hc] at hsame
          | some c1 =>
            simp [hc] at hsame
            exact ⟨t, c1, rfl, hc, hsame⟩
        simp only [if_pos hsame]
        cases ho : cls.getOperationAnyConst stmt.getFuncName false with
        | none => simp
        | some oper =>
          cases hs : findNode oper.getName .PNT_Operation nodes with
          | none => simp [hs]
          | some i =>
            cases caller with
            | none => simp [hs]
            | some j =>
              simp only [hs, List.mem_singleton, PortionConnection.mk.injEq]
              constructor
              · rintro ⟨rfl, rfl⟩
                exact ⟨⟨hcall, hex⟩, ⟨oper, rfl, hs⟩, rfl⟩
              · rintro ⟨-, ⟨o, ho2, ho3⟩, h3⟩
                cases ho2
                rw [hs] at ho3
                cases ho3
                cases h3
                exact ⟨rfl, rfl⟩
      · simp only [if_neg hsame]
        simp only [List.not_mem_nil, false_iff, not_and]
        rintro ⟨-, t1, c1, h1, h2, h3⟩
        cases h1
        simp [h2, h3] at hsame
  · rw [if_neg hcall]
    simp [hcall]

theorem mem_attrPassConns (cls : ModelClassifier) (nodes : List PortionNode)
    (c : PortionConnection) :
    c ∈ attrPassConns cls nodes ↔
      ∃ attr ∈ cls.getAttributes, ∃ oper ∈ cls.getOperations,
        oper.getStatements.checkAttrUsed attr.getName = true ∧
        findNode attr.getName .PNT_Attribute nodes = some c.supplierIndex ∧
        findNode oper.getName .PNT_Operation nodes = some c.consumerIndex := by
  simp only [attrPassConns, List.mem_flatMap, mem_attrOperConns]

theorem mem_callPassConns (cls : ModelClassifier) (nodes : List PortionNode)
    (c : PortionConnection) :
    c ∈ callPassConns cls nodes ↔
      ∃ caller ∈ cls.getOperations, ∃ stmt ∈ caller.getStatements.stmts,
        isCallOn cls stmt ∧
        (∃ oper, cls.getOperationAnyConst stmt.getFuncName false = some oper ∧
          findNode oper.getName .PNT_Operation nodes = some c.supplierIndex) ∧
        findNode caller.getName .PNT_Operation nodes = some c.consumerIndex := by
  simp only [callPassConns, List.mem_flatMap, mem_callConns]

/-- Every connection of a finished build joins first positions of nodes: an
external-reference node, an attribute node or an operation node as supplier,
an operation node as consumer. -/
theorem clearAndAddClass_conn_kinds (mModel : ModelData) (classname : String)
    (type : ModelType) (cls : ModelClassifier) (g : Graph)
    (hT : mModel.findType classname = some type) (hC : type.getClass = some cls)
    (h : clearAndAddClass mModel Graph.empty classname = .ok g)
    (c : PortionConnection) (hc : c ∈ g.mConnections) :
    ∃ sname skind cname,
      findNode sname skind g.mNodes = some c.supplierIndex ∧
      findNode cname .PNT_Operation g.mNodes = some c.consumerIndex := by
  obtain ⟨g1, -, hinv, hn, hconn⟩ := clearAndAddClass_shape mModel classname type cls g hT hC h
  rw [hconn, List.mem_append, List.mem_append] at hc
  rcases hc with (hc | hc) | hc
  · obtain ⟨ext, -, -, -, hcs⟩ := hinv
    obtain ⟨b, o, hb, ho⟩ := hcs c hc
    exact ⟨b, _, o, hn ▸ hb, hn ▸ ho⟩
  · obtain ⟨attr, -, oper, -, -, hs, hk⟩ := (mem_attrPassConns cls g.mNodes c).mp hc
    exact ⟨_, _, _, hs, hk⟩
  · obtain ⟨caller, -, stmt, -, -, ⟨oper, -, hs⟩, hk⟩ := (mem_callPassConns cls g.mNodes c).mp hc
    exact ⟨_, _, _, hs, hk⟩

theorem nodup_nodes_iff (cls : ModelClassifier) (ext : List PortionNode)
    (hk : ∀ n ∈ ext, n.getNodeType = .PNT_NonMemberVariable) (hd : ext.Nodup) :
    (classNodes cls ++ ext).Nodup ↔
      (cls.getAttributes.map (·.getName)).Nodup ∧ (cls.getOperations.map (·.getName)).Nodup := by
  have hA : cls.getAttributes.map (fun attr => (⟨attr.getName, .PNT_Attribute⟩ : PortionNode)) =
      (cls.getAttributes.map (·.getName)).map (fun n => ⟨n, .PNT_Attribute⟩) := by
    simp [List.map_map, Function.comp_def]
  have hO : cls.getOperations.map (fun oper => (⟨oper.getName, .PNT_Operation⟩ : PortionNode)) =
      (cls.getOperations.map (·.getName)).map (fun n => ⟨n, .PNT_Operation⟩) := by
    simp [List.map_map, Function.comp_def]
  have injA : Function.Injective (fun n : String => (⟨n, .PNT_Attribute⟩ : PortionNode)) := by
    intro x y hxy
    injection hxy
  have injO : Function.Injective (fun n : String => (⟨n, .PNT_Operation⟩ : PortionNode)) := by
    intro x y hxy
    injection hxy
  have hdisj1 : List.Disjoint
      (cls.getAttributes.map (fun attr => (⟨attr.getName, .PNT_Attribute⟩ : PortionNode)))
      (cls.getOperations.map (fun oper => (⟨oper.getName, .PNT_Operation⟩ : PortionNode))) := by
    intro n h1 h2
    obtain ⟨a, -, rfl⟩ := List.mem_map.mp h1
    obtain ⟨o, -, ho⟩ := List.mem_map.mp h2
    injection ho with _ hkind
    cases hkind
  have hdisj2 : List.Disjoint (classNodes cls) ext := by
    intro n h1 h2
    have h3 := hk n h2
    simp only [classNodes, List.mem_append, List.mem_map] at h1
    rcases h1 with ⟨a, -, rfl⟩ | ⟨o, -, rfl⟩ <;> cases h3
  rw [List.nodup_append]
  simp only [hd, hdisj2, and_true, true_and]
  rw [classNodes, List.nodup_append]
  simp only [hdisj1, and_true]
  rw [hA, hO, List.nodup_map_iff injA, List.nodup_map_iff injO]

/-! ## Claims -/

/-- C4. Edge validity: a build on a newly constructed graph never applies
`getNodeIndex` to a failed lookup, and when it completes every connection has
its supplier index and its consumer index below the length of the node list. -/
theorem clearAndAddClass_edges_valid (mModel : ModelData) (classname : String) :
    clearAndAddClass mModel Graph.empty classname ≠ .error .nullNode ∧
    ∀ g, clearAndAddClass mModel Graph.empty classname = .ok g → g.ValidEdges := by
  cases hT : mModel.findType classname with
  | none =>
    refine ⟨by simp [clearAndAddClass, hT], ?_⟩
    intro g h
    simp [clearAndAddClass, hT] at h
    subst h
    intro c hc
    cases hc
  | some type =>
    cases hC : type.getClass with
    | none =>
      refine ⟨by simp [clearAndAddClass, hT, hC], ?_⟩
      intro g h
      simp [clearAndAddClass, hT, hC] at h
      subst h
      intro c hc
      cases hc
    | some cls =>
      constructor
      · rw [clearAndAddClass_class mModel _ classname type cls hT hC]
        cases h1 : addExternalReferences (addClassNodes Graph.empty cls) cls with
        | error e =>
          intro h
          simp only at h
          cases h
          exact addExternalReferences_no_nullNode cls _ (ExtInv_start cls) h1
        | ok g1 =>
          have hinv := (addExternalReferences_inv cls _ g1 (ExtInv_start cls) h1).1
          exact addConnections_no_nullNode cls g1 (fun n hn => hinv.mem_classNodes n hn)
      · intro g h c hc
        obtain ⟨sname, skind, cname, hs, hk⟩ :=
          clearAndAddClass_conn_kinds mModel classname type cls g hT hC h c hc
        exact ⟨findNode_lt _ _ _ _ hs, findNode_lt _ _ _ _ hk⟩

/-- Witness for C4: the build of the sample class completes and its two
connections are valid. -/
theorem clearAndAddClass_edges_valid_witness :
    clearAndAddClass (modelOf sampleClass) Graph.empty "C" =
        .ok ⟨[⟨"a", .PNT_Attribute⟩, ⟨"b", .PNT_Attribute⟩, ⟨"f", .PNT_Operation⟩,
          ⟨"g", .PNT_Operation⟩], [⟨0, 2⟩, ⟨2, 3⟩]⟩ ∧
      Graph.ValidEdges ⟨[⟨"a", .PNT_Attribute⟩, ⟨"b", .PNT_Attribute⟩, ⟨"f", .PNT_Operation⟩,
          ⟨"g", .PNT_Operation⟩], [⟨0, 2⟩, ⟨2, 3⟩]⟩ :=
  ⟨rfl, (clearAndAddClass_edges_valid (modelOf sampleClass) "C").2 _ rfl⟩

/-- C9. Unknown class is a no-op: when `findType` finds no type for the class
name, or finds a type whose `getClass` is absent, the build on a newly
constructed graph completes and leaves no node and no connection. -/
theorem clearAndAddClass_unknown_class (mModel : ModelData) (classname : String)
    (h : mModel.findType classname = none ∨
      ∃ type, mModel.findType classname = some type ∧ type.getClass = none) :
    clearAndAddClass mModel Graph.empty classname = .ok ⟨[], []⟩ := by
  rcases h with h | ⟨type, hT, hC⟩
  · simp [clearAndAddClass, h, Graph.empty]
  · simp [clearAndAddClass, hT, hC, Graph.empty]

/-- Witness for C9: a name the model does not know, and the name of a type that
is not a class. -/
theorem clearAndAddClass_unknown_class_witness :
    clearAndAddClass intOnlyModel Graph.empty "DoesNotExist" = .ok ⟨[], []⟩ ∧
    clearAndAddClass intOnlyModel Graph.empty "int" = .ok ⟨[], []⟩ :=
  ⟨clearAndAddClass_unknown_class intOnlyModel "DoesNotExist" (Or.inl rfl),
    clearAndAddClass_unknown_class intOnlyModel "int" (Or.inr ⟨⟨none⟩, rfl, rfl⟩)⟩

/-- C6. Declaration-order node list: a completed build of a class on a newly
constructed graph yields one Attribute node per attribute in declaration
order, then one Operation node per operation in declaration order, and only
`PNT_NonMemberVariable` nodes after them (distinct member names are not needed
for this). For attributes `a`, `b` and operations `f` (using `a`) and `g`
(calling `f`) the nodes are exactly `a`, `b`, `f`, `g` and the connections
include `(a, f)` and `(f, g)`. -/
theorem clearAndAddClass_declaration_order :
    (∀ (mModel : ModelData) (classname : String) (type : ModelType) (cls : ModelClassifier)
        (g : Graph),
      mModel.findType classname = some type → type.getClass = some cls →
      clearAndAddClass mModel Graph.empty classname = .ok g →
      ∃ ext : List PortionNode,
        g.mNodes =
          cls.getAttributes.map (fun attr => ⟨attr.getName, .PNT_Attribute⟩) ++
          cls.getOperations.map (fun oper => ⟨oper.getName, .PNT_Operation⟩) ++ ext ∧
        ∀ n ∈ ext, n.getNodeType = .PNT_NonMemberVariable) ∧
    (∃ g, clearAndAddClass (modelOf sampleClass) Graph.empty "C" = .ok g ∧
      g.mNodes = [⟨"a", .PNT_Attribute⟩, ⟨"b", .PNT_Attribute⟩, ⟨"f", .PNT_Operation⟩,
        ⟨"g", .PNT_Operation⟩] ∧
      g.hasConnection ⟨"a", .PNT_Attribute⟩ ⟨"f", .PNT_Operation⟩ ∧
      g.hasConnection ⟨"f", .PNT_Operation⟩ ⟨"g", .PNT_Operation⟩) := by
  constructor
  · intro mModel classname type cls g hT hC h
    obtain ⟨g1, -, ⟨ext, he, hk, -, -⟩, hn, -⟩ :=
      clearAndAddClass_shape mModel classname type cls g hT hC h
    exact ⟨ext, by rw [hn, he, classNodes], hk⟩
  · exact ⟨_, rfl, rfl, by decide, by decide⟩

/-- Witness for C6: the general statement applied to the sample class. -/
theorem clearAndAddClass_declaration_order_witness :
    ∃ ext : List PortionNode,
      [⟨"a", .PNT_Attribute⟩, ⟨"b", .PNT_Attribute⟩, ⟨"f", .PNT_Operation⟩,
          (⟨"g", .PNT_Operation⟩ : PortionNode)] =
        sampleClass.getAttributes.map (fun attr => ⟨attr.getName, .PNT_Attribute⟩) ++
        sampleClass.getOperations.map (fun oper => ⟨oper.getName, .PNT_Operation⟩) ++ ext ∧
      ∀ n ∈ ext, n.getNodeType = .PNT_NonMemberVariable :=
  clearAndAddClass_declaration_order.1 (modelOf sampleClass) "C" ⟨some sampleClass⟩ sampleClass
    ⟨[⟨"a", .PNT_Attribute⟩, ⟨"b", .PNT_Attribute⟩, ⟨"f", .PNT_Operation⟩,
      ⟨"g", .PNT_Operation⟩], [⟨0, 2⟩, ⟨2, 3⟩]⟩ rfl rfl rfl

/-- C3, as stated, fails: a class with two operations named `f` gets two
`(f, Operation)` nodes. -/
theorem clearAndAddClass_duplicate_nodes :
    clearAndAddClass (modelOf overloadClass) Graph.empty "C" =
        .ok ⟨[⟨"f", .PNT_Operation⟩, ⟨"f", .PNT_Operation⟩], []⟩ ∧
      ¬ List.Nodup [(⟨"f", .PNT_Operation⟩ : PortionNode), ⟨"f", .PNT_Operation⟩] :=
  ⟨rfl, by decide⟩

/-- C3, amended. After a completed build of a class on a newly constructed
graph, no two positions of the node list hold the same (name, kind) pair
exactly when the attribute names of the class are pairwise distinct and its
operation names are pairwise distinct. -/
theorem clearAndAddClass_nodup_iff (mModel : ModelData) (classname : String)
    (type : ModelType) (cls : ModelClassifier) (g : Graph)
    (hT : mModel.findType classname = some type) (hC : type.getClass = some cls)
    (h : clearAndAddClass mModel Graph.empty classname = .ok g) :
    g.mNodes.Nodup ↔
      (cls.getAttributes.map (·.getName)).Nodup ∧ (cls.getOperations.map (·.getName)).Nodup := by
  obtain ⟨g1, -, ⟨ext, he, hk, hd, -⟩, hn, -⟩ :=
    clearAndAddClass_shape mModel classname type cls g hT hC h
  rw [hn, he]
  exact nodup_nodes_iff cls ext hk hd

/-- Witness for C3, amended: the sample class has distinct member names and its
four nodes are distinct. -/
theorem clearAndAddClass_nodup_iff_witness :
    List.Nodup [(⟨"a", .PNT_Attribute⟩ : PortionNode), ⟨"b", .PNT_Attribute⟩,
      ⟨"f", .PNT_Operation⟩, ⟨"g", .PNT_Operation⟩] :=
  (clearAndAddClass_nodup_iff (modelOf sampleClass) "C" ⟨some sampleClass⟩ sampleClass
    ⟨[⟨"a", .PNT_Attribute⟩, ⟨"b", .PNT_Attribute⟩, ⟨"f", .PNT_Operation⟩,
      ⟨"g", .PNT_Operation⟩], [⟨0, 2⟩, ⟨2, 3⟩]⟩ rfl rfl rfl).mpr ⟨by decide, by decide⟩

/-- C1 fails on the code: `clearAndAddClass` never empties `mNodes` and
`mConnections`, so a second call for the same class on the same graph appends
the nodes and connections of the class a second time. -/
theorem clearAndAddClass_twice_appends :
    clearAndAddClass (modelOf sampleClass) Graph.empty "C" =
      .ok ⟨[⟨"a", .PNT_Attribute⟩, ⟨"b", .PNT_Attribute⟩, ⟨"f", .PNT_Operation⟩,
        ⟨"g", .PNT_Operation⟩], [⟨0, 2⟩, ⟨2, 3⟩]⟩ ∧
    clearAndAddClass (modelOf sampleClass)
        ⟨[⟨"a", .PNT_Attribute⟩, ⟨"b", .PNT_Attribute⟩, ⟨"f", .PNT_Operation⟩,
          ⟨"g", .PNT_Operation⟩], [⟨0, 2⟩, ⟨2, 3⟩]⟩ "C" =
      .ok ⟨[⟨"a", .PNT_Attribute⟩, ⟨"b", .PNT_Attribute⟩, ⟨"f", .PNT_Operation⟩,
        ⟨"g", .PNT_Operation⟩, ⟨"a", .PNT_Attribute⟩, ⟨"b", .PNT_Attribute⟩,
        ⟨"f", .PNT_Operation⟩, ⟨"g", .PNT_Operation⟩],
        [⟨0, 2⟩, ⟨2, 3⟩, ⟨0, 2⟩, ⟨2, 3⟩]⟩ :=
  ⟨rfl, rfl⟩

/-- C2 fails on the code: the nodes and connections a graph held before the
call are still there after it, in front of those of the class, and for a
class name the model does not know the graph is left as it was. -/
theorem clearAndAddClass_keeps_prior_content :
    clearAndAddClass (modelOf sampleClass) ⟨[⟨"x", .PNT_Attribute⟩], [⟨0, 0⟩]⟩ "C" =
      .ok ⟨[⟨"x", .PNT_Attribute⟩, ⟨"a", .PNT_Attribute⟩, ⟨"b", .PNT_Attribute⟩,
        ⟨"f", .PNT_Operation⟩, ⟨"g", .PNT_Operation⟩], [⟨0, 0⟩, ⟨1, 3⟩, ⟨3, 4⟩]⟩ ∧
    clearAndAddClass (modelOf sampleClass) ⟨[⟨"x", .PNT_Attribute⟩], [⟨0, 0⟩]⟩ "D" =
      .ok ⟨[⟨"x", .PNT_Attribute⟩], [⟨0, 0⟩]⟩ ∧
    clearAndAddClass (modelOf sampleClass) Graph.empty "D" = .ok ⟨[], []⟩ :=
  ⟨rfl, rfl, rfl⟩

/-- C10 fails on the code: a base-class member reference whose declared type is
absent makes the external-reference loop dereference a null pointer
(`getDeclType()->getClass()`, line 54), and so does one whose declared type is
not a class (`calledClass->getName()`, line 55), and so does a call whose
declared type is absent (line 117); the build ends in a fault instead of
skipping the statement. Only a call whose declared type is not a class is
skipped. -/
theorem clearAndAddClass_null_declType_faults :
    clearAndAddClass (modelOf danglingClass) Graph.empty "C" = .error .nullDeref ∧
    clearAndAddClass (modelOf (oneStatementClass ⟨.ST_Other, true, "helper", some ⟨none⟩⟩))
      Graph.empty "C" = .error .nullDeref ∧
    clearAndAddClass (modelOf (oneStatementClass ⟨.ST_Call, false, "helper", none⟩))
      Graph.empty "C" = .error .nullDeref ∧
    clearAndAddClass (modelOf (oneStatementClass ⟨.ST_Call, false, "helper", some ⟨none⟩⟩))
      Graph.empty "C" = .ok ⟨[⟨"h", .PNT_Operation⟩], []⟩ :=
  ⟨rfl, rfl, rfl, rfl⟩

/-- C5, as stated, fails: with two operations named `f` of which only the first
uses the attribute `a`, the connection `(a, f)` exists although the second
`f` does not use `a`. -/
theorem clearAndAddClass_attr_usage_overload :
    clearAndAddClass (modelOf overloadUseClass) Graph.empty "C" =
        .ok ⟨[⟨"a", .PNT_Attribute⟩, ⟨"f", .PNT_Operation⟩, ⟨"f", .PNT_Operation⟩], [⟨0, 1⟩]⟩ ∧
      ¬ AttrUsageComplete overloadUseClass
        ⟨[⟨"a", .PNT_Attribute⟩, ⟨"f", .PNT_Operation⟩, ⟨"f", .PNT_Operation⟩], [⟨0, 1⟩]⟩ :=
  ⟨rfl, by decide⟩

/-- C5, amended. For a class whose operation names are pairwise distinct, after
a completed build on a newly constructed graph: for every attribute and every
operation of the class, the connection list contains a connection whose
supplier is the attribute's Attribute node and whose consumer is the
operation's Operation node if and only if the operation's statements report
`checkAttrUsed` for the attribute name. -/
theorem clearAndAddClass_attr_usage (mModel : ModelData) (classname : String)
    (type : ModelType) (cls : ModelClassifier) (g : Graph)
    (hT : mModel.findType classname = some type) (hC : type.getClass = some cls)
    (h : clearAndAddClass mModel Graph.empty classname = .ok g)
    (hd : (cls.getOperations.map (·.getName)).Nodup) :
    AttrUsageComplete cls g := by
  obtain ⟨g1, -, hinv, hn, hconn⟩ := clearAndAddClass_shape mModel classname type cls g hT hC h
  intro attr hattr oper hoper
  constructor
  · rintro ⟨c, hc, hs, hk⟩
    rw [hconn, List.mem_append, List.mem_append] at hc
    rcases hc with (hc | hc) | hc
    · obtain ⟨ext, -, -, -, hcs⟩ := hinv
      obtain ⟨b, o, hb, -⟩ := hcs c hc
      have := findNode_getElem _ _ _ _ hb
      rw [← hn, hs] at this
      simp at this
    · obtain ⟨attr1, -, oper1, hoper1, hu, hs1, hk1⟩ := (mem_attrPassConns cls g.mNodes c).mp hc
      have e1 := findNode_getElem _ _ _ _ hs1
      have e2 := findNode_getElem _ _ _ _ hk1
      rw [hs] at e1
      rw [hk] at e2
      injection e1 with e1
      injection e2 with e2
      injection e1 with e1 _
      injection e2 with e2 _
      have : oper1 = oper := List.inj_on_of_nodup_map hd hoper1 hoper e2.symm
      rw [← this, e1]
      exact hu
    · obtain ⟨caller, -, stmt, -, -, ⟨o, -, hs1⟩, -⟩ := (mem_callPassConns cls g.mNodes c).mp hc
      have := findNode_getElem _ _ _ _ hs1
      rw [hs] at this
      simp at this
  · intro hu
    have hmem : ∀ n ∈ classNodes cls, n ∈ g.mNodes := fun n hnn => hn ▸ hinv.mem_classNodes n hnn
    obtain ⟨i, hi⟩ := findNode_of_mem _ _ _ (hmem _ (attrNode_mem_classNodes cls attr hattr))
    obtain ⟨j, hj⟩ := findNode_of_mem _ _ _ (hmem _ (operNode_mem_classNodes cls oper hoper))
    refine ⟨⟨i, j⟩, ?_, findNode_getElem _ _ _ _ hi, findNode_getElem _ _ _ _ hj⟩
    rw [hconn, List.mem_append, List.mem_append]
    exact Or.inl (Or.inr ((mem_attrPassConns cls g.mNodes _).mpr
      ⟨attr, hattr, oper, hoper, hu, hi, hj⟩))

/-- Witness for C5, amended: the sample class, where only `f` uses `a`. -/
theorem clearAndAddClass_attr_usage_witness :
    AttrUsageComplete sampleClass
      ⟨[⟨"a", .PNT_Attribute⟩, ⟨"b", .PNT_Attribute⟩, ⟨"f", .PNT_Operation⟩,
        ⟨"g", .PNT_Operation⟩], [⟨0, 2⟩, ⟨2, 3⟩]⟩ :=
  clearAndAddClass_attr_usage (modelOf sampleClass) "C" ⟨some sampleClass⟩ sampleClass _
    rfl rfl rfl (by decide)

/-- C8. Intra-class call edges, both directions: for a class with pairwise
distinct operation names, after a completed build on a newly constructed
graph, there is a connection whose supplier is the Operation node of `f` and
whose consumer is the Operation node of `g` if and only if `g` has a statement
of type Call whose declared class is the class itself and whose function name
is the name of `f`. -/
theorem clearAndAddClass_call_edges (mModel : ModelData) (classname : String)
    (type : ModelType) (cls : ModelClassifier) (g : Graph)
    (hT : mModel.findType classname = some type) (hC : type.getClass = some cls)
    (h : clearAndAddClass mModel Graph.empty classname = .ok g)
    (hd : (cls.getOperations.map (·.getName)).Nodup)
    (callee : ModelOperation) (hcallee : callee ∈ cls.getOperations)
    (caller : ModelOperation) (hcaller : caller ∈ cls.getOperations) :
    g.hasConnection ⟨callee.getName, .PNT_Operation⟩ ⟨caller.getName, .PNT_Operation⟩ ↔
      ∃ stmt ∈ caller.getStatements.stmts,
        isCallOn cls stmt ∧ stmt.getFuncName = callee.getName := by
  obtain ⟨g1, -, hinv, hn, hconn⟩ := clearAndAddClass_shape mModel classname type cls g hT hC h
  constructor
  · rintro ⟨c, hc, hs, hk⟩
    rw [hconn, List.mem_append, List.mem_append] at hc
    rcases hc with (hc | hc) | hc
    · obtain ⟨ext, -, -, -, hcs⟩ := hinv
      obtain ⟨b, o, hb, -⟩ := hcs c hc
      have := findNode_getElem _ _ _ _ hb
      rw [← hn, hs] at this
      simp at this
    · obtain ⟨attr1, -, oper1, -, -, hs1, -⟩ := (mem_attrPassConns cls g.mNodes c).mp hc
      have := findNode_getElem _ _ _ _ hs1
      rw [hs] at this
      simp at this
    · obtain ⟨caller1, hcaller1, stmt, hstmt, hcall, ⟨o, ho, hs1⟩, hk1⟩ :=
        (mem_callPassConns cls g.mNodes c).mp hc
      have e1 := findNode_getElem _ _ _ _ hs1
      have e2 := findNode_getElem _ _ _ _ hk1
      rw [hs] at e1
      rw [hk] at e2
      injection e1 with e1
      injection e2 with e2
      injection e1 with e1 _
      injection e2 with e2 _
      have : caller1 = caller := List.inj_on_of_nodup_map hd hcaller1 hcaller e2.symm
      subst this
      exact ⟨stmt, hstmt, hcall, by rw [← (getOperationAnyConst_some _ _ _ _ ho).2, e1]⟩
  · rintro ⟨stmt, hstmt, hcall, hname⟩
    have hmem : ∀ n ∈ classNodes cls, n ∈ g.mNodes := fun n hnn => hn ▸ hinv.mem_classNodes n hnn
    obtain ⟨o, ho⟩ := getOperationAnyConst_of_mem cls false callee hcallee
    have ho2 := getOperationAnyConst_some _ _ _ _ ho
    obtain ⟨i, hi⟩ := findNode_of_mem _ _ _ (hmem _ (operNode_mem_classNodes cls callee hcallee))
    obtain ⟨j, hj⟩ := findNode_of_mem _ _ _ (hmem _ (operNode_mem_classNodes cls caller hcaller))
    refine ⟨⟨i, j⟩, ?_, findNode_getElem _ _ _ _ hi, findNode_getElem _ _ _ _ hj⟩
    rw [hconn, List.mem_append, List.mem_append]
    refine Or.inr ((mem_callPassConns cls g.mNodes _).mpr
      ⟨caller, hcaller, stmt, hstmt, hcall, ⟨o, by rw [hname]; exact ho, ?_⟩, hj⟩)
    rw [ho2.2]
    exact hi

/-- Witness for C8: in the sample class `g` calls `f`, and the connection from
`f` to `g` is there. -/
theorem clearAndAddClass_call_edges_witness :
    (sampleGraph.hasConnection ⟨"f", .PNT_Operation⟩ ⟨"g", .PNT_Operation⟩ ↔
      ∃ stmt ∈ operG.getStatements.stmts, isCallOn sampleClass stmt ∧ stmt.getFuncName = "f") ∧
    sampleGraph.hasConnection ⟨"f", .PNT_Operation⟩ ⟨"g", .PNT_Operation⟩ :=
  ⟨clearAndAddClass_call_edges (modelOf sampleClass) "C" ⟨some sampleClass⟩ sampleClass
      sampleGraph rfl rfl rfl (by decide) operF (List.mem_cons_self _ _)
      operG (List.mem_cons_of_mem _ (List.mem_cons_self _ _)),
    by decide⟩

/-- C7. External reference materialization: after a completed build on a newly
constructed graph, for every operation `h` of the class and every statement of
`h` that has a base-class member reference, whose function name is not the
name of an Operation node, and whose declared type resolves to a class with
non-empty name `B`, the node list contains the node `(B, PNT_NonMemberVariable)`
and the connection list contains the connection from the index of that node
to the index of the Operation node of `h`. -/
theorem clearAndAddClass_external_reference (mModel : ModelData) (classname : String)
    (type : ModelType) (cls : ModelClassifier) (g : Graph)
    (hT : mModel.findType classname = some type) (hC : type.getClass = some cls)
    (h : clearAndAddClass mModel Graph.empty classname = .ok g)
    (oper : ModelOperation) (hoper : oper ∈ cls.getOperations)
    (stmt : ModelStatement) (hstmt : stmt ∈ oper.getStatements.stmts)
    (hb : stmt.hasBaseClassMemberRef = true)
    (hf : (⟨stmt.getFuncName, .PNT_Operation⟩ : PortionNode) ∉ g.mNodes)
    (t : ModelTypeRef) (c : ModelClassifierRef)
    (ht : stmt.getDeclType = some t) (hc : t.getClass = some c) (hl : 0 < c.name.length) :
    (⟨c.name, .PNT_NonMemberVariable⟩ : PortionNode) ∈ g.mNodes ∧
    ∃ i j, getNode g c.name .PNT_NonMemberVariable = some i ∧
      getNode g oper.getName .PNT_Operation = some j ∧
      (⟨i, j⟩ : PortionConnection) ∈ g.mConnections := by
  obtain ⟨g1, hext, -, hn, hconn⟩ := clearAndAddClass_shape mModel classname type cls g hT hC h
  obtain ⟨ga, gb, hga, -, hbody, hgb⟩ :=
    forEach_split extRefOperation (ExtInv cls) Extends cls.getOperations
      (fun k o k1 _ hk hbk => (extRefOperation_inv cls o k k1 hk hbk).1)
      (fun k o k1 _ hk hbk => (extRefOperation_inv cls o k k1 hk hbk).2)
      Extends.refl Extends.trans _ g1 (ExtInv_start cls) hext oper hoper
  obtain ⟨gc, gd, -, -, hstep, hgd⟩ :=
    forEach_split (extRefStatement oper.getName) (ExtInv cls) Extends oper.getStatements.stmts
      (fun k x k1 _ hk hbk => (ExtInv_step cls oper.getName k k1 x hk hbk).1)
      (fun k x k1 _ hk hbk => (ExtInv_step cls oper.getName k k1 x hk hbk).2)
      Extends.refl Extends.trans ga gb hga hbody stmt hstmt
  have hfin : Extends gd g1 := Extends.trans _ _ _ hgd hgb
  have hnodes : gd.mNodes <+: g.mNodes := hn ▸ hfin.1
  have hconns : ∀ x ∈ gd.mConnections, x ∈ g.mConnections := by
    intro x hx
    rw [hconn, List.append_assoc]
    exact List.mem_append_left _ (hfin.2.mem hx)
  have hgc : (⟨stmt.getFuncName, .PNT_Operation⟩ : PortionNode) ∉ gc.mNodes := by
    intro hmem
    rcases extRefStatement_ok oper.getName gc gd stmt hstep with ⟨rfl, -⟩ |
      ⟨_, _, _, _, -, hnot, -⟩
    · exact hf (hnodes.mem hmem)
    · exact hnot hmem
  rcases extRefStatement_ok oper.getName gc gd stmt hstep with ⟨-, hno⟩ |
    ⟨t1, c1, i, j, -, -, ht1, hc1, -, hj, hcase⟩
  · exact absurd ⟨hb, hgc, t, c, ht, hc, hl⟩ hno
  · rw [ht] at ht1
    cases ht1
    rw [hc] at hc1
    cases hc1
    have key : findNode c.name .PNT_NonMemberVariable gd.mNodes = some i ∧
        findNode oper.getName .PNT_Operation gd.mNodes = some j ∧
        (⟨i, j⟩ : PortionConnection) ∈ gd.mConnections := by
      rcases hcase with ⟨hi, rfl⟩ | ⟨hi, rfl, rfl⟩
      · exact ⟨hi, hj, by simp⟩
      · exact ⟨findNode_append_new _ _ _ hi, findNode_append _ _ _ _ _ hj, by simp⟩
    have hi2 := findNode_prefix _ _ _ _ _ hnodes key.1
    have hj2 := findNode_prefix _ _ _ _ _ hnodes key.2.1
    exact ⟨List.getElem?_mem (findNode_getElem _ _ _ _ hi2), i, j, hi2, hj2, hconns _ key.2.2⟩

/-- Witness for C7: operation `h` refers to `Base::helper`; the build yields the
nodes `h` and `Base` and the connection from `Base` to `h`. -/
theorem clearAndAddClass_external_reference_witness :
    clearAndAddClass (modelOf derivedClass) Graph.empty "C" =
        .ok ⟨[⟨"h", .PNT_Operation⟩, ⟨"Base", .PNT_NonMemberVariable⟩], [⟨1, 0⟩]⟩ ∧
    ((⟨"Base", .PNT_NonMemberVariable⟩ : PortionNode) ∈
        [(⟨"h", .PNT_Operation⟩ : PortionNode), ⟨"Base", .PNT_NonMemberVariable⟩] ∧
      ∃ i j,
        getNode ⟨[⟨"h", .PNT_Operation⟩, ⟨"Base", .PNT_NonMemberVariable⟩], [⟨1, 0⟩]⟩
          "Base" .PNT_NonMemberVariable = some i ∧
        getNode ⟨[⟨"h", .PNT_Operation⟩, ⟨"Base", .PNT_NonMemberVariable⟩], [⟨1, 0⟩]⟩
          "h" .PNT_Operation = some j ∧
        (⟨i, j⟩ : PortionConnection) ∈ [(⟨1, 0⟩ : PortionConnection)]) :=
  ⟨rfl,
    clearAndAddClass_external_reference (modelOf derivedClass) "C" ⟨some derivedClass⟩
      derivedClass ⟨[⟨"h", .PNT_Operation⟩, ⟨"Base", .PNT_NonMemberVariable⟩], [⟨1, 0⟩]⟩
      rfl rfl rfl operH (List.mem_cons_self _ _) (baseRefStmt 2 "Base" "helper")
      (List.mem_cons_self _ _) rfl (by decide) ⟨some ⟨2, "Base"⟩⟩ ⟨2, "Base"⟩ rfl rfl
      (by decide)⟩


/-! ## Skipped statements -/

theorem forEach_skip {α : Type} (body : Graph → α → Except Fault Graph) (P : Graph → Prop)
    (x : α) (hP : ∀ g y g1, P g → body g y = .ok g1 → P g1)
    (hx : ∀ g, P g → body g x = .ok g) (pre post : List α) (g : Graph) (h0 : P g) :
    forEach body g (pre ++ x :: post) = forEach body g (pre ++ post) := by
  induction pre generalizing g with
  | nil => simp [forEach, hx g h0]
  | cons y pre ih =>
    simp only [List.cons_append, forEach]
    cases hb : body g y with
    | error e => rfl
    | ok g1 => exact ih g1 (hP g y g1 h0 hb)

theorem forEach_congr_at {α : Type} (body body1 : Graph → α → Except Fault Graph)
    (a b : α) (hbody : ∀ g x, body g x = body1 g x) (hab : ∀ g, body g a = body1 g b)
    (before after : List α) (g : Graph) :
    forEach body g (before ++ a :: after) = forEach body1 g (before ++ b :: after) := by
  have hfun : body = body1 := funext fun g => funext fun x => hbody g x
  subst hfun
  induction before generalizing g with
  | nil =>
    simp only [List.nil_append, forEach, hab g]
  | cons y before ih =>
    simp only [List.cons_append, forEach]
    cases hb : body g y with
    | error e => rfl
    | ok g1 => exact ih g1

theorem extRefStatement_extends (operName : String) (g g1 : Graph) (stmt : ModelStatement)
    (h : extRefStatement operName g stmt = .ok g1) : Extends g g1 := by
  rcases extRefStatement_ok operName g g1 stmt h with ⟨rfl, -⟩ |
    ⟨t, c, i, j, -, -, -, -, -, -, ⟨-, rfl⟩ | ⟨-, -, rfl⟩⟩
  · exact Extends.refl _
  · exact ⟨List.prefix_refl _, List.prefix_append _ _⟩
  · exact ⟨List.prefix_append _ _, List.prefix_append _ _⟩

theorem extRefStatement_shadowed (operName : String) (g : Graph) (stmt : ModelStatement)
    (hmem : (⟨stmt.getFuncName, .PNT_Operation⟩ : PortionNode) ∈ g.mNodes) :
    extRefStatement operName g stmt = .ok g := by
  obtain ⟨i, hi⟩ := findNode_of_mem _ _ _ hmem
  unfold extRefStatement
  simp [getNode, hi]

theorem extRefStatement_empty_name (operName : String) (g : Graph) (stmt : ModelStatement)
    (t : ModelTypeRef) (c : ModelClassifierRef)
    (ht : stmt.getDeclType = some t) (hc : t.getClass = some c) (hl : c.name = "") :
    extRefStatement operName g stmt = .ok g := by
  have h0 : ¬ (c.name.length > 0) := by
    rw [hl]
    decide
  unfold extRefStatement
  simp only [ht, hc, if_neg h0]
  split
  · split <;> rfl
  · rfl

theorem operationBody_unresolved (cls : ModelClassifier) (caller : Option Nat) (g : Graph)
    (stmt : ModelStatement) (hcall : isCallOn cls stmt)
    (hnone : cls.getOperationAnyConst stmt.getFuncName false = none) :
    operationBody cls caller g stmt = .ok g := by
  obtain ⟨hty, t, c, ht, hc, haddr⟩ := hcall
  unfold operationBody DebugAssert
  simp [hty, ht, hc, haddr, hnone]

theorem operationBody_congr (cls cls1 : ModelClassifier) (haddr : cls1.addr = cls.addr)
    (hop : ∀ n, (cls.getOperationAnyConst n false).map (·.getName) =
      (cls1.getOperationAnyConst n false).map (·.getName))
    (caller : Option Nat) (g : Graph) (stmt : ModelStatement) :
    operationBody cls caller g stmt = operationBody cls1 caller g stmt := by
  unfold operationBody
  rw [haddr]
  have h := hop stmt.getFuncName
  cases h1 : cls.getOperationAnyConst stmt.getFuncName false with
  | none =>
    cases h2 : cls1.getOperationAnyConst stmt.getFuncName false with
    | none => rfl
    | some o2 => simp [h1, h2] at h
  | some o1 =>
    cases h2 : cls1.getOperationAnyConst stmt.getFuncName false with
    | none => simp [h1, h2] at h
    | some o2 =>
      simp [h1, h2] at h
      simp only [h]

theorem find_name_congr (a b : ModelOperation) (hab : a.getName = b.getName) (n : String)
    (before after : List ModelOperation) :
    ((before ++ a :: after).find? (fun o => decide (o.getName = n))).map (·.getName) =
      ((before ++ b :: after).find? (fun o => decide (o.getName = n))).map (·.getName) := by
  induction before with
  | nil =>
    simp only [List.nil_append, List.find?_cons, hab]
    split <;> simp [*]
  | cons y before ih =>
    simp only [List.cons_append, List.find?_cons]
    split
    · rfl
    · exact ih

theorem attrOperBody_congr (attrName : String) (g : Graph) (a b : ModelOperation)
    (hname : a.getName = b.getName)
    (hused : a.getStatements.checkAttrUsed = b.getStatements.checkAttrUsed) :
    attrOperBody attrName g a = attrOperBody attrName g b := by
  unfold attrOperBody
  rw [hname, hused]

/-! ## Growth of the graph -/

theorem prefix_getElem {α : Type} (l l1 : List α) (hp : l <+: l1) (i : Nat) (a : α)
    (h : l[i]? = some a) : l1[i]? = some a := by
  obtain ⟨more, rfl⟩ := hp
  have hlt : i < l.length := by
    by_contra hn
    rw [List.getElem?_eq_none (by omega)] at h
    cases h
  rw [List.getElem?_append_left hlt]
  exact h

theorem extRefOperation_extends (oper : ModelOperation) (g g1 : Graph)
    (h : extRefOperation g oper = .ok g1) : Extends g g1 :=
  forEach_invariant (extRefStatement oper.getName) (fun k => Extends g k)
    oper.getStatements.stmts
    (fun k stmt k1 _ hk hb =>
      Extends.trans _ _ _ hk (extRefStatement_extends oper.getName k k1 stmt hb))
    g g1 (Extends.refl g) h

theorem addExternalReferences_extends (cls : ModelClassifier) (g g1 : Graph)
    (h : addExternalReferences g cls = .ok g1) : Extends g g1 :=
  forEach_invariant extRefOperation (fun k => Extends g k) cls.getOperations
    (fun k oper k1 _ hk hb => Extends.trans _ _ _ hk (extRefOperation_extends oper k k1 hb))
    g g1 (Extends.refl g) h

/-- The step of the external-reference loop for a qualifying statement, as an
equation: the node of the declared class is looked up, pushed when absent,
and the connection to the enclosing operation is pushed. -/
theorem extRefStatement_qualifying (operName : String) (g : Graph) (stmt : ModelStatement)
    (t : ModelTypeRef) (c : ModelClassifierRef) (j : Nat)
    (hb : stmt.hasBaseClassMemberRef = true)
    (hf : (⟨stmt.getFuncName, .PNT_Operation⟩ : PortionNode) ∉ g.mNodes)
    (ht : stmt.getDeclType = some t) (hc : t.getClass = some c) (hl : 0 < c.name.length)
    (hj : findNode operName .PNT_Operation g.mNodes = some j) :
    extRefStatement operName g stmt =
      .ok (match findNode c.name .PNT_NonMemberVariable g.mNodes with
        | some i => ⟨g.mNodes, g.mConnections ++ [⟨i, j⟩]⟩
        | none => ⟨g.mNodes ++ [⟨c.name, .PNT_NonMemberVariable⟩],
            g.mConnections ++ [⟨g.mNodes.length, j⟩]⟩) := by
  have hnone := (findNode_none_iff _ _ _).mpr hf
  unfold extRefStatement
  simp only [hb, if_true, getNode, hnone, Option.isNone_none, ht, hc, gt_iff_lt, hl]
  rcases Option.eq_none_or_eq_some (findNode c.name .PNT_NonMemberVariable g.mNodes) with
    hx | ⟨i, hx⟩
  · have hnew := findNode_append_new c.name .PNT_NonMemberVariable g.mNodes hx
    have hj1 := findNode_append _ _ _ [⟨c.name, .PNT_NonMemberVariable⟩] _ hj
    simp [hx, Graph.pushNode, hnew, hj1, getNodeIndex, Graph.pushConnection]
  · simp [hx, hj, getNodeIndex, Graph.pushConnection]

theorem extRefStatement_count (operName : String) (g g1 : Graph) (stmt : ModelStatement)
    (h : extRefStatement operName g stmt = .ok g1)
    (hq : ∀ b, g.mNodes.count ⟨b, .PNT_NonMemberVariable⟩ ≤ 1) :
    ∀ b, g1.mNodes.count ⟨b, .PNT_NonMemberVariable⟩ ≤ 1 := by
  rcases extRefStatement_ok operName g g1 stmt h with ⟨rfl, -⟩ |
    ⟨t, c, i, j, -, -, -, -, -, -, ⟨-, rfl⟩ | ⟨hi, -, rfl⟩⟩
  · exact hq
  · exact hq
  · intro b
    have hnot := (findNode_none_iff _ _ _).mp hi
    simp only [List.count_append, List.count_singleton]
    by_cases hbc : b = c.name
    · subst hbc
      rw [List.count_eq_zero_of_not_mem hnot]
      simp
    · have : ¬ ((⟨c.name, .PNT_NonMemberVariable⟩ : PortionNode) == ⟨b, .PNT_NonMemberVariable⟩)
          = true := by
        simp only [beq_iff_eq, PortionNode.mk.injEq, and_true]
        exact fun e => hbc e.symm
      simp only [this, if_false, Nat.add_zero]
      exact hq b

theorem count_classNodes (cls : ModelClassifier) (b : String) :
    (classNodes cls).count ⟨b, .PNT_NonMemberVariable⟩ = 0 := by
  apply List.count_eq_zero_of_not_mem
  simp [classNodes]

/-! ## The connections of the external-reference loops, as a list -/

theorem growsExt_refl (g : Graph) : GrowsExt g g := ⟨[], by simp, by simp⟩

theorem growsExt_trans (a b c : Graph) (h1 : GrowsExt a b) (h2 : GrowsExt b c) :
    GrowsExt a c := by
  obtain ⟨m1, e1, k1⟩ := h1
  obtain ⟨m2, e2, k2⟩ := h2
  refine ⟨m1 ++ m2, by rw [e2, e1, List.append_assoc], ?_⟩
  intro n hn
  rcases List.mem_append.mp hn with hn | hn
  · exact k1 n hn
  · exact k2 n hn

theorem growsExt_findNode {g g1 : Graph} (h : GrowsExt g g1) (name : String)
    (nt : PortionNodeTypes) (i : Nat) (hi : findNode name nt g.mNodes = some i) :
    findNode name nt g1.mNodes = some i := by
  obtain ⟨more, e, -⟩ := h
  rw [e]
  exact findNode_append name nt _ more i hi

theorem growsExt_operation_mem {g g1 : Graph} (h : GrowsExt g g1) (name : String) :
    (⟨name, .PNT_Operation⟩ : PortionNode) ∈ g1.mNodes ↔
      (⟨name, .PNT_Operation⟩ : PortionNode) ∈ g.mNodes := by
  obtain ⟨more, e, hk⟩ := h
  rw [e, List.mem_append]
  constructor
  · rintro (hm | hm)
    · exact hm
    · have := hk _ hm
      cases this
  · exact Or.inl

theorem forEach_conns_final {α : Type} (body : Graph → α → Except Fault Graph)
    (out : List PortionNode → α → List PortionConnection)
    (step : ∀ g x g1, body g x = .ok g1 →
      GrowsExt g g1 ∧
        ∀ g2, GrowsExt g1 g2 → g1.mConnections = g.mConnections ++ out g2.mNodes x)
    (xs : List α) (g g1 : Graph) (h : forEach body g xs = .ok g1) :
    GrowsExt g g1 ∧
      ∀ g2, GrowsExt g1 g2 →
        g1.mConnections = g.mConnections ++ xs.flatMap (out g2.mNodes) := by
  induction xs generalizing g with
  | nil =>
    simp [forEach] at h
    subst h
    exact ⟨growsExt_refl _, fun g2 _ => by simp⟩
  | cons x rest ih =>
    simp only [forEach] at h
    cases hb : body g x with
    | error e => simp [hb] at h
    | ok ga =>
      rw [hb] at h
      obtain ⟨hR1, hout1⟩ := step g x ga hb
      obtain ⟨hR2, hout2⟩ := ih ga h
      refine ⟨growsExt_trans _ _ _ hR1 hR2, fun g2 hg2 => ?_⟩
      rw [hout2 g2 hg2, hout1 g2 (growsExt_trans _ _ _ hR2 hg2)]
      simp

theorem extRefStatement_final (operName : String) (g g1 : Graph) (stmt : ModelStatement)
    (h : extRefStatement operName g stmt = .ok g1) :
    GrowsExt g g1 ∧
      ∀ g2, GrowsExt g1 g2 →
        g1.mConnections = g.mConnections ++ extRefConns g2.mNodes operName stmt := by
  rcases extRefStatement_ok operName g g1 stmt h with ⟨rfl, hno⟩ |
    ⟨t, c, i, j, hb, hf, ht, hc, hl, hj, hcase⟩
  · refine ⟨growsExt_refl _, fun g2 hg2 => ?_⟩
    have hnil : extRefConns g2.mNodes operName stmt = [] := by
      unfold extRefConns
      by_cases hb : stmt.hasBaseClassMemberRef = true
      · rw [if_pos hb]
        by_cases hn : (findNode stmt.getFuncName .PNT_Operation g2.mNodes).isNone = true
        · rw [if_pos hn]
          have hnot2 : (⟨stmt.getFuncName, .PNT_Operation⟩ : PortionNode) ∉ g2.mNodes :=
            (findNode_none_iff _ _ _).mp (Option.isNone_iff_eq_none.mp hn)
          have hnot : (⟨stmt.getFuncName, .PNT_Operation⟩ : PortionNode) ∉ g1.mNodes :=
            fun hm => hnot2 ((growsExt_operation_mem hg2 _).mpr hm)
          rcases Option.eq_none_or_eq_some stmt.getDeclType with ht | ⟨t, ht⟩
          · simp [ht]
          · rcases Option.eq_none_or_eq_some t.getClass with hc | ⟨c, hc⟩
            · simp [ht, hc]
            · by_cases hl : c.name.length > 0
              · exact absurd ⟨hb, hnot, t, c, ht, hc, hl⟩ hno
              · simp [ht, hc, hl]
        · rw [if_neg hn]
      · rw [if_neg hb]
    rw [hnil, List.append_nil]
  · have hgrow : GrowsExt g g1 := by
      rcases hcase with ⟨-, rfl⟩ | ⟨-, -, rfl⟩
      · exact growsExt_refl _
      · exact ⟨[⟨c.name, .PNT_NonMemberVariable⟩], rfl, by simp⟩
    have key : findNode c.name .PNT_NonMemberVariable g1.mNodes = some i ∧
        findNode operName .PNT_Operation g1.mNodes = some j ∧
        g1.mConnections = g.mConnections ++ [⟨i, j⟩] := by
      rcases hcase with ⟨hi, rfl⟩ | ⟨hi, rfl, rfl⟩
      · exact ⟨hi, hj, rfl⟩
      · exact ⟨findNode_append_new _ _ _ hi, findNode_append _ _ _ _ _ hj, rfl⟩
    refine ⟨hgrow, fun g2 hg2 => ?_⟩
    have hi2 := growsExt_findNode hg2 _ _ _ key.1
    have hj2 := growsExt_findNode hg2 _ _ _ key.2.1
    have hnot2 : (⟨stmt.getFuncName, .PNT_Operation⟩ : PortionNode) ∉ g2.mNodes :=
      fun hm => hf ((growsExt_operation_mem (growsExt_trans _ _ _ hgrow hg2) _).mp hm)
    have hnone2 := (findNode_none_iff _ _ _).mpr hnot2
    rw [key.2.2]
    unfold extRefConns
    simp [hb, hnone2, ht, hc, hl, hi2, hj2]

theorem extRefOperation_final (oper : ModelOperation) (g g1 : Graph)
    (h : extRefOperation g oper = .ok g1) :
    GrowsExt g g1 ∧
      ∀ g2, GrowsExt g1 g2 →
        g1.mConnections = g.mConnections ++
          oper.getStatements.stmts.flatMap (extRefConns g2.mNodes oper.getName) :=
  forEach_conns_final (extRefStatement oper.getName)
    (fun nodes stmt => extRefConns nodes oper.getName stmt)
    (fun k stmt k1 hk => extRefStatement_final oper.getName k k1 stmt hk)
    oper.getStatements.stmts g g1 h

theorem addExternalReferences_conns (cls : ModelClassifier) (g g1 : Graph)
    (h : addExternalReferences g cls = .ok g1) :
    GrowsExt g g1 ∧ g1.mConnections = g.mConnections ++ extPassConns cls g1.mNodes := by
  have := forEach_conns_final extRefOperation
    (fun nodes (oper : ModelOperation) =>
      oper.getStatements.stmts.flatMap (extRefConns nodes oper.getName))
    (fun k oper k1 hk => extRefOperation_final oper k k1 hk) cls.getOperations g g1 h
  exact ⟨this.1, this.2 g1 (growsExt_refl _)⟩

theorem clearAndAddClass_conns (mModel : ModelData) (classname : String)
    (type : ModelType) (cls : ModelClassifier) (g : Graph)
    (hT : mModel.findType classname = some type) (hC : type.getClass = some cls)
    (h : clearAndAddClass mModel Graph.empty classname = .ok g) :
    g.mConnections =
      extPassConns cls g.mNodes ++ attrPassConns cls g.mNodes ++ callPassConns cls g.mNodes := by
  obtain ⟨g1, hext, -, hn, hconn⟩ := clearAndAddClass_shape mModel classname type cls g hT hC h
  have he := (addExternalReferences_conns cls _ g1 hext).2
  rw [addClassNodes_eq] at he
  rw [hconn, he, hn]
  simp [Graph.empty]

theorem mem_extRefConns (nodes : List PortionNode) (operName : String) (stmt : ModelStatement)
    (c : PortionConnection) :
    c ∈ extRefConns nodes operName stmt ↔
      stmt.hasBaseClassMemberRef = true ∧
      findNode stmt.getFuncName .PNT_Operation nodes = none ∧
      ∃ t cl, stmt.getDeclType = some t ∧ t.getClass = some cl ∧ 0 < cl.name.length ∧
        findNode cl.name .PNT_NonMemberVariable nodes = some c.supplierIndex ∧
        findNode operName .PNT_Operation nodes = some c.consumerIndex := by
  obtain ⟨s, k⟩ := c
  unfold extRefConns
  by_cases hb : stmt.hasBaseClassMemberRef = true
  · rw [if_pos hb]
    by_cases hn : (findNode stmt.getFuncName .PNT_Operation nodes).isNone = true
    · rw [if_pos hn]
      have hnone := Option.isNone_iff_eq_none.mp hn
      rcases Option.eq_none_or_eq_some stmt.getDeclType with ht | ⟨t, ht⟩
      · simp [ht]
      · rcases Option.eq_none_or_eq_some t.getClass with hc | ⟨cl, hc⟩
        · simp [ht, hc]
        · by_cases hl : cl.name.length > 0
          · rcases Option.eq_none_or_eq_some (findNode cl.name .PNT_NonMemberVariable nodes)
              with hi | ⟨i, hi⟩
            · simp [ht, hc, hi]
            · rcases Option.eq_none_or_eq_some (findNode operName .PNT_Operation nodes)
                with hj | ⟨j, hj⟩
              · simp [ht, hc, hi, hj]
              · simp [hb, hnone, ht, hc, hl, hi, hj, eq_comm]
          · have hl0 : cl.name.length = 0 := by omega
            simp [ht, hc, hl0]
    · rw [if_neg hn]
      have hsome : ¬ (findNode stmt.getFuncName .PNT_Operation nodes = none) :=
        fun e => hn (Option.isNone_iff_eq_none.mpr e)
      simp [hsome]
  · rw [if_neg hb]
    simp [hb]

theorem mem_extPassConns (cls : ModelClassifier) (nodes : List PortionNode)
    (c : PortionConnection) :
    c ∈ extPassConns cls nodes ↔
      ∃ oper ∈ cls.getOperations, ∃ stmt ∈ oper.getStatements.stmts,
        c ∈ extRefConns nodes oper.getName stmt := by
  simp only [extPassConns, List.mem_flatMap]

/-! ## Counting connections -/

theorem countP_flatMap_eq {α β : Type} (p : β → Bool) (q : α → Bool) (F : α → List β)
    (l : List α) (h : ∀ x ∈ l, List.countP p (F x) = if q x then 1 else 0) :
    List.countP p (l.flatMap F) = List.countP q l := by
  induction l with
  | nil => simp
  | cons x rest ih =>
    rw [List.flatMap_cons, List.countP_append, List.countP_cons,
      ih (fun y hy => h y (List.mem_cons_of_mem _ hy)), h x (List.mem_cons_self _ _)]
    omega

theorem countP_flatMap_zero {α β : Type} (p : β → Bool) (F : α → List β) (l : List α)
    (h : ∀ x ∈ l, List.countP p (F x) = 0) : List.countP p (l.flatMap F) = 0 := by
  induction l with
  | nil => simp
  | cons x rest ih =>
    rw [List.flatMap_cons, List.countP_append,
      ih (fun y hy => h y (List.mem_cons_of_mem _ hy)), h x (List.mem_cons_self _ _)]

theorem countP_flatMap_unique {α β : Type} (p : β → Bool) (key : α → String)
    (F : α → List β) (l : List α) (x0 : α) (hx0 : x0 ∈ l) (hd : (l.map key).Nodup)
    (hother : ∀ x ∈ l, key x ≠ key x0 → List.countP p (F x) = 0) :
    List.countP p (l.flatMap F) = List.countP p (F x0) := by
  induction l with
  | nil => cases hx0
  | cons x rest ih =>
    rw [List.map_cons, List.nodup_cons] at hd
    rw [List.flatMap_cons, List.countP_append]
    by_cases hk : key x = key x0
    · have hx : x0 = x := by
        rcases List.mem_cons.mp hx0 with e | hmem
        · exact e
        · exact absurd (hk ▸ List.mem_map_of_mem key hmem) hd.1
      subst hx
      have hrest : List.countP p (rest.flatMap F) = 0 := by
        apply countP_flatMap_zero
        intro y hy
        apply hother y (List.mem_cons_of_mem _ hy)
        intro e
        exact hd.1 (e ▸ List.mem_map_of_mem key hy)
      rw [hrest, Nat.add_zero]
    · have hmem : x0 ∈ rest := by
        rcases List.mem_cons.mp hx0 with e | hmem
        · exact absurd (e ▸ rfl) hk
        · exact hmem
      rw [hother x (List.mem_cons_self _ _) hk, Nat.zero_add]
      exact ih hmem hd.2 (fun y hy => hother y (List.mem_cons_of_mem _ hy))

theorem countP_of_length_le_one {β : Type} (p : β → Bool) (l : List β) (hl : l.length ≤ 1)
    (q : Bool) (hq : (∃ c ∈ l, p c = true) ↔ q = true) :
    List.countP p l = if q then 1 else 0 := by
  match l, hl with
  | [], _ =>
    have : q = false := by
      cases q
      · rfl
      · obtain ⟨c, hc, -⟩ := hq.mpr rfl
        cases hc
    simp [this]
  | [c], _ =>
    rw [List.countP_singleton]
    by_cases hp : p c = true
    · have : q = true := hq.mp ⟨c, List.mem_singleton.mpr rfl, hp⟩
      simp [hp, this]
    · have : q = false := by
        cases hqv : q
        · rfl
        · obtain ⟨d, hd, hpd⟩ := hq.mpr hqv
          rw [List.mem_singleton] at hd
          subst hd
          exact absurd hpd hp
      simp [hp, this]

theorem extRefConns_length (nodes : List PortionNode) (operName : String)
    (stmt : ModelStatement) : (extRefConns nodes operName stmt).length ≤ 1 := by
  unfold extRefConns
  repeat' split
  all_goals simp

theorem attrOperConns_length (nodes : List PortionNode) (attrName : String)
    (oper : ModelOperation) : (attrOperConns nodes attrName oper).length ≤ 1 := by
  unfold attrOperConns
  repeat' split
  all_goals simp

theorem callConns_length (cls : ModelClassifier) (nodes : List PortionNode)
    (caller : Option Nat) (stmt : ModelStatement) :
    (callConns cls nodes caller stmt).length ≤ 1 := by
  unfold callConns
  repeat' split
  all_goals simp

theorem joins_iff (nodes : List PortionNode) (supplier consumer : PortionNode)
    (c : PortionConnection) :
    joins nodes supplier consumer c = true ↔
      nodes[c.supplierIndex]? = some supplier ∧ nodes[c.consumerIndex]? = some consumer := by
  simp [joins]

theorem countP_joins_zero_of_supplier (nodes : List PortionNode) (l : List PortionConnection)
    (supplier consumer : PortionNode) (kind : PortionNodeTypes)
    (hk : supplier.getNodeType ≠ kind)
    (h : ∀ c ∈ l, ∃ name, nodes[c.supplierIndex]? = some ⟨name, kind⟩) :
    List.countP (joins nodes supplier consumer) l = 0 := by
  rw [List.countP_eq_zero]
  intro c hc hj
  obtain ⟨name, hn⟩ := h c hc
  rw [joins_iff, hn] at hj
  have := hj.1
  injection this with e
  exact hk (e ▸ rfl)

theorem extPassConns_supplier (cls : ModelClassifier) (nodes : List PortionNode) :
    ∀ c ∈ extPassConns cls nodes,
      ∃ name, nodes[c.supplierIndex]? = some ⟨name, .PNT_NonMemberVariable⟩ := by
  intro c hc
  obtain ⟨oper, -, stmt, -, hmem⟩ := (mem_extPassConns cls nodes c).mp hc
  obtain ⟨-, -, t, cl, -, -, -, hs, -⟩ := (mem_extRefConns _ _ _ c).mp hmem
  exact ⟨cl.name, findNode_getElem _ _ _ _ hs⟩

theorem attrPassConns_supplier (cls : ModelClassifier) (nodes : List PortionNode) :
    ∀ c ∈ attrPassConns cls nodes,
      ∃ name, nodes[c.supplierIndex]? = some ⟨name, .PNT_Attribute⟩ := by
  intro c hc
  obtain ⟨attr, -, oper, -, -, hs, -⟩ := (mem_attrPassConns cls nodes c).mp hc
  exact ⟨attr.getName, findNode_getElem _ _ _ _ hs⟩

theorem callPassConns_supplier (cls : ModelClassifier) (nodes : List PortionNode) :
    ∀ c ∈ callPassConns cls nodes,
      ∃ name, nodes[c.supplierIndex]? = some ⟨name, .PNT_Operation⟩ := by
  intro c hc
  obtain ⟨caller, -, stmt, -, -, ⟨o, -, hs⟩, -⟩ := (mem_callPassConns cls nodes c).mp hc
  exact ⟨o.getName, findNode_getElem _ _ _ _ hs⟩

/-- In a build of `cls` on a new graph, a qualifying statement finds the node of
its declared class in the node list the external-reference loops end with. -/
theorem addExternalReferences_qualifying (cls : ModelClassifier) (g1 : Graph)
    (hext : addExternalReferences (addClassNodes Graph.empty cls) cls = .ok g1)
    (oper : ModelOperation) (hoper : oper ∈ cls.getOperations)
    (stmt : ModelStatement) (hstmt : stmt ∈ oper.getStatements.stmts)
    (hb : stmt.hasBaseClassMemberRef = true)
    (hf : (⟨stmt.getFuncName, .PNT_Operation⟩ : PortionNode) ∉ g1.mNodes)
    (t : ModelTypeRef) (c : ModelClassifierRef)
    (ht : stmt.getDeclType = some t) (hc : t.getClass = some c) (hl : 0 < c.name.length) :
    ∃ i, findNode c.name .PNT_NonMemberVariable g1.mNodes = some i := by
  obtain ⟨ga, gb, hga, -, hbody, hgb⟩ :=
    forEach_split extRefOperation (ExtInv cls) Extends cls.getOperations
      (fun k o k1 _ hk hbk => (extRefOperation_inv cls o k k1 hk hbk).1)
      (fun k o k1 _ hk hbk => (extRefOperation_inv cls o k k1 hk hbk).2)
      Extends.refl Extends.trans _ g1 (ExtInv_start cls) hext oper hoper
  obtain ⟨gc, gd, -, -, hstep, hgd⟩ :=
    forEach_split (extRefStatement oper.getName) (ExtInv cls) Extends oper.getStatements.stmts
      (fun k x k1 _ hk hbk => (ExtInv_step cls oper.getName k k1 x hk hbk).1)
      (fun k x k1 _ hk hbk => (ExtInv_step cls oper.getName k k1 x hk hbk).2)
      Extends.refl Extends.trans ga gb hga hbody stmt hstmt
  have hnodes : gd.mNodes <+: g1.mNodes := (Extends.trans _ _ _ hgd hgb).1
  have hstepExt := extRefStatement_extends oper.getName gc gd stmt hstep
  have hgc : (⟨stmt.getFuncName, .PNT_Operation⟩ : PortionNode) ∉ gc.mNodes :=
    fun hm => hf (hnodes.mem (hstepExt.1.mem hm))
  rcases extRefStatement_ok oper.getName gc gd stmt hstep with ⟨-, hno⟩ |
    ⟨t1, c1, i, j, -, -, ht1, hc1, -, -, hcase⟩
  · exact absurd ⟨hb, hgc, t, c, ht, hc, hl⟩ hno
  · rw [ht] at ht1
    cases ht1
    rw [hc] at hc1
    cases hc1
    have key : findNode c.name .PNT_NonMemberVariable gd.mNodes = some i := by
      rcases hcase with ⟨hi, rfl⟩ | ⟨hi, rfl, rfl⟩
      · exact hi
      · exact findNode_append_new _ _ _ hi
    exact ⟨i, findNode_prefix _ _ _ _ _ hnodes key⟩

/-- Facts about the node list of a finished build of `cls` on a new graph that
the counting lemmas use. -/
theorem clearAndAddClass_nodes_facts (mModel : ModelData) (classname : String)
    (type : ModelType) (cls : ModelClassifier) (g : Graph)
    (hT : mModel.findType classname = some type) (hC : type.getClass = some cls)
    (h : clearAndAddClass mModel Graph.empty classname = .ok g) :
    (∀ n ∈ classNodes cls, n ∈ g.mNodes) ∧
    (∀ name, (⟨name, .PNT_Operation⟩ : PortionNode) ∈ g.mNodes →
      ∃ o ∈ cls.getOperations, o.getName = name) ∧
    (∀ oper ∈ cls.getOperations, ∀ stmt ∈ oper.getStatements.stmts,
      stmt.hasBaseClassMemberRef = true →
      (⟨stmt.getFuncName, .PNT_Operation⟩ : PortionNode) ∉ g.mNodes →
      ∀ t c, stmt.getDeclType = some t → t.getClass = some c → 0 < c.name.length →
      ∃ i, findNode c.name .PNT_NonMemberVariable g.mNodes = some i) := by
  obtain ⟨g1, hext, hinv, hn, -⟩ := clearAndAddClass_shape mModel classname type cls g hT hC h
  refine ⟨fun n hnn => hn ▸ hinv.mem_classNodes n hnn, ?_, ?_⟩
  · intro name hmem
    obtain ⟨ext, he, hk, -, -⟩ := hinv
    rw [hn, he, List.mem_append] at hmem
    rcases hmem with hmem | hmem
    · simp only [classNodes, List.mem_append, List.mem_map] at hmem
      rcases hmem with ⟨a, -, ha⟩ | ⟨o, ho, hoe⟩
      · injection ha with _ hkind
        cases hkind
      · injection hoe with hname _
        exact ⟨o, ho, hname⟩
    · have := hk _ hmem
      cases this
  · intro oper hoper stmt hstmt hb hf t c ht hc hl
    rw [hn] at hf ⊢
    exact addExternalReferences_qualifying cls g1 hext oper hoper stmt hstmt hb hf t c ht hc hl

theorem callPassConns_count (cls : ModelClassifier) (nodes : List PortionNode)
    (hmem : ∀ n ∈ classNodes cls, n ∈ nodes)
    (hd : (cls.getOperations.map (·.getName)).Nodup)
    (callee : ModelOperation) (hcallee : callee ∈ cls.getOperations)
    (caller : ModelOperation) (hcaller : caller ∈ cls.getOperations) :
    List.countP (joins nodes ⟨callee.getName, .PNT_Operation⟩ ⟨caller.getName, .PNT_Operation⟩)
        (callPassConns cls nodes) =
      caller.getStatements.stmts.countP
        (fun s => decide (isCallOn cls s ∧ s.getFuncName = callee.getName)) := by
  unfold callPassConns
  rw [countP_flatMap_unique _ (fun o : ModelOperation => o.getName) _ cls.getOperations caller
    hcaller hd]
  · apply countP_flatMap_eq
    intro s _
    apply countP_of_length_le_one _ _ (callConns_length _ _ _ _)
    rw [decide_eq_true_iff]
    constructor
    · rintro ⟨c, hc, hj⟩
      obtain ⟨hcall, ⟨o, ho, hs⟩, -⟩ := (mem_callConns _ _ _ _ c).mp hc
      have e1 := findNode_getElem _ _ _ _ hs
      rw [(joins_iff _ _ _ _).mp hj |>.1] at e1
      injection e1 with e1
      injection e1 with e1 _
      exact ⟨hcall, by rw [← (getOperationAnyConst_some _ _ _ _ ho).2, e1]⟩
    · rintro ⟨hcall, hname⟩
      obtain ⟨o, ho⟩ := getOperationAnyConst_of_mem cls false callee hcallee
      have ho2 := getOperationAnyConst_some _ _ _ _ ho
      obtain ⟨i, hi⟩ := findNode_of_mem _ _ _ (hmem _ (operNode_mem_classNodes cls callee hcallee))
      obtain ⟨j, hj⟩ := findNode_of_mem _ _ _ (hmem _ (operNode_mem_classNodes cls caller hcaller))
      refine ⟨⟨i, j⟩, (mem_callConns _ _ _ _ _).mpr
        ⟨hcall, ⟨o, by rw [hname]; exact ho, by rw [ho2.2]; exact hi⟩, hj⟩, ?_⟩
      exact (joins_iff _ _ _ _).mpr ⟨findNode_getElem _ _ _ _ hi, findNode_getElem _ _ _ _ hj⟩
  · intro x _ hx
    rw [List.countP_eq_zero]
    intro c hc hj
    obtain ⟨stmt, -, hcs⟩ := List.mem_flatMap.mp hc
    obtain ⟨-, -, hk⟩ := (mem_callConns _ _ _ _ c).mp hcs
    have e2 := findNode_getElem _ _ _ _ hk
    rw [(joins_iff _ _ _ _).mp hj |>.2] at e2
    injection e2 with e2
    injection e2 with e2 _
    exact hx e2.symm

theorem extPassConns_count (cls : ModelClassifier) (nodes : List PortionNode)
    (hmem : ∀ n ∈ classNodes cls, n ∈ nodes)
    (hoperNode : ∀ name, (⟨name, .PNT_Operation⟩ : PortionNode) ∈ nodes →
      ∃ o ∈ cls.getOperations, o.getName = name)
    (hpresent : ∀ oper ∈ cls.getOperations, ∀ stmt ∈ oper.getStatements.stmts,
      stmt.hasBaseClassMemberRef = true →
      (⟨stmt.getFuncName, .PNT_Operation⟩ : PortionNode) ∉ nodes →
      ∀ t c, stmt.getDeclType = some t → t.getClass = some c → 0 < c.name.length →
      ∃ i, findNode c.name .PNT_NonMemberVariable nodes = some i)
    (hd : (cls.getOperations.map (·.getName)).Nodup)
    (b : String) (oper : ModelOperation) (hoper : oper ∈ cls.getOperations) :
    List.countP (joins nodes ⟨b, .PNT_NonMemberVariable⟩ ⟨oper.getName, .PNT_Operation⟩)
        (extPassConns cls nodes) =
      oper.getStatements.stmts.countP (fun s => decide (IsExternalRefTo cls b s)) := by
  unfold extPassConns
  rw [countP_flatMap_unique _ (fun o : ModelOperation => o.getName) _ cls.getOperations oper
    hoper hd]
  · apply countP_flatMap_eq
    intro s hs
    apply countP_of_length_le_one _ _ (extRefConns_length _ _ _)
    rw [decide_eq_true_iff]
    constructor
    · rintro ⟨c, hc, hj⟩
      obtain ⟨hb, hnone, t, cl, ht, hcl, hl, hsup, -⟩ := (mem_extRefConns _ _ _ c).mp hc
      have e1 := findNode_getElem _ _ _ _ hsup
      rw [(joins_iff _ _ _ _).mp hj |>.1] at e1
      injection e1 with e1
      injection e1 with e1 _
      refine ⟨hb, ?_, by simp [ht, hcl, e1], by rw [e1]; exact hl⟩
      intro o ho hname
      have := operNode_mem_classNodes cls o ho
      rw [hname] at this
      exact (findNode_none_iff _ _ _).mp hnone (hmem _ this)
    · rintro ⟨hb, hnames, hdecl, hl⟩
      have hnot : (⟨s.getFuncName, .PNT_Operation⟩ : PortionNode) ∉ nodes := by
        intro hm
        obtain ⟨o, ho, hname⟩ := hoperNode _ hm
        exact hnames o ho hname
      rcases Option.eq_none_or_eq_some s.getDeclType with ht | ⟨t, ht⟩
      · simp [ht] at hdecl
      · rcases Option.eq_none_or_eq_some t.getClass with hcl | ⟨cl, hcl⟩
        · simp [ht, hcl] at hdecl
        · simp [ht, hcl] at hdecl
          subst hdecl
          obtain ⟨i, hi⟩ := hpresent oper hoper s hs hb hnot t cl ht hcl hl
          obtain ⟨j, hj⟩ := findNode_of_mem _ _ _
            (hmem _ (operNode_mem_classNodes cls oper hoper))
          refine ⟨⟨i, j⟩, (mem_extRefConns _ _ _ _).mpr
            ⟨hb, (findNode_none_iff _ _ _).mpr hnot, t, cl, ht, hcl, hl, hi, hj⟩, ?_⟩
          exact (joins_iff _ _ _ _).mpr
            ⟨findNode_getElem _ _ _ _ hi, findNode_getElem _ _ _ _ hj⟩
  · intro x _ hx
    rw [List.countP_eq_zero]
    intro c hc hj
    obtain ⟨stmt, -, hcs⟩ := List.mem_flatMap.mp hc
    obtain ⟨-, -, t, cl, -, -, -, -, hk⟩ := (mem_extRefConns _ _ _ c).mp hcs
    have e2 := findNode_getElem _ _ _ _ hk
    rw [(joins_iff _ _ _ _).mp hj |>.2] at e2
    injection e2 with e2
    injection e2 with e2 _
    exact hx e2.symm

theorem attrPassConns_count_le (cls : ModelClassifier) (nodes : List PortionNode)
    (hda : (cls.getAttributes.map (·.getName)).Nodup)
    (hdo : (cls.getOperations.map (·.getName)).Nodup)
    (attr : ModelAttribute) (hattr : attr ∈ cls.getAttributes)
    (oper : ModelOperation) (hoper : oper ∈ cls.getOperations) :
    List.countP (joins nodes ⟨attr.getName, .PNT_Attribute⟩ ⟨oper.getName, .PNT_Operation⟩)
        (attrPassConns cls nodes) ≤ 1 := by
  unfold attrPassConns
  rw [countP_flatMap_unique _ (fun a : ModelAttribute => a.getName) _ cls.getAttributes attr
    hattr hda]
  · rw [countP_flatMap_unique _ (fun o : ModelOperation => o.getName) _ cls.getOperations oper
      hoper hdo]
    · exact Nat.le_trans (List.countP_le_length _) (attrOperConns_length _ _ _)
    · intro x _ hx
      rw [List.countP_eq_zero]
      intro c hc hj
      obtain ⟨-, -, hk⟩ := (mem_attrOperConns _ _ _ c).mp hc
      have e2 := findNode_getElem _ _ _ _ hk
      rw [(joins_iff _ _ _ _).mp hj |>.2] at e2
      injection e2 with e2
      injection e2 with e2 _
      exact hx e2.symm
  · intro x _ hx
    rw [List.countP_eq_zero]
    intro c hc hj
    obtain ⟨o, -, hco⟩ := List.mem_flatMap.mp hc
    obtain ⟨-, hsup, -⟩ := (mem_attrOperConns _ _ _ c).mp hco
    have e1 := findNode_getElem _ _ _ _ hsup
    rw [(joins_iff _ _ _ _).mp hj |>.1] at e1
    injection e1 with e1
    injection e1 with e1 _
    exact hx e1.symm

/-! ## Claims, continued -/

/-- C12. Shadowing skip in the external-reference pass: a statement (with a
base-class member reference or not) whose function name is the name of an
existing Operation node leaves the graph as it is, whatever its declared
class, so no external-reference node and no connection is made for it; the
statement loop of the operation then runs as if the statement were absent. -/
theorem extRefStatement_shadowing_skip (operName : String) (g : Graph) (stmt : ModelStatement)
    (hmem : (⟨stmt.getFuncName, .PNT_Operation⟩ : PortionNode) ∈ g.mNodes) :
    extRefStatement operName g stmt = .ok g ∧
    ∀ pre post : List ModelStatement,
      forEach (extRefStatement operName) g (pre ++ stmt :: post) =
        forEach (extRefStatement operName) g (pre ++ post) :=
  ⟨extRefStatement_shadowed operName g stmt hmem,
    fun pre post =>
      forEach_skip (extRefStatement operName)
        (fun k => (⟨stmt.getFuncName, .PNT_Operation⟩ : PortionNode) ∈ k.mNodes) stmt
        (fun k y k1 hk hb => (extRefStatement_extends operName k k1 y hb).1.mem hk)
        (fun k hk => extRefStatement_shadowed operName k stmt hk) pre post g hmem⟩

/-- Witness for C12: `h` refers to `Base::helper` while the class has an operation
`helper`; the statement is skipped on the populated graph, and the whole build
gives no `Base` node and no connection. -/
theorem extRefStatement_shadowing_skip_witness :
    (extRefStatement "h" ⟨[⟨"h", .PNT_Operation⟩, ⟨"helper", .PNT_Operation⟩], []⟩
        (baseRefStmt 2 "Base" "helper") =
      .ok ⟨[⟨"h", .PNT_Operation⟩, ⟨"helper", .PNT_Operation⟩], []⟩) ∧
    clearAndAddClass (modelOf shadowClass) Graph.empty "C" =
      .ok ⟨[⟨"h", .PNT_Operation⟩, ⟨"helper", .PNT_Operation⟩], []⟩ :=
  ⟨(extRefStatement_shadowing_skip "h"
      ⟨[⟨"h", .PNT_Operation⟩, ⟨"helper", .PNT_Operation⟩], []⟩
      (baseRefStmt 2 "Base" "helper") (by decide)).1, rfl⟩

/-- C13. Empty external class name is skipped: a statement whose declared type
resolves to a class whose name is the empty string (in particular one with a
base-class member reference whose function name is not an Operation node)
leaves the graph as it is: no node, no connection, no fault; the statement
loop then runs as if the statement were absent. -/
theorem extRefStatement_empty_class_name_skip (operName : String) (stmt : ModelStatement)
    (t : ModelTypeRef) (c : ModelClassifierRef)
    (ht : stmt.getDeclType = some t) (hc : t.getClass = some c) (hl : c.name = "") :
    (∀ g, extRefStatement operName g stmt = .ok g) ∧
    ∀ (g : Graph) (pre post : List ModelStatement),
      forEach (extRefStatement operName) g (pre ++ stmt :: post) =
        forEach (extRefStatement operName) g (pre ++ post) :=
  ⟨fun g => extRefStatement_empty_name operName g stmt t c ht hc hl,
    fun g pre post =>
      forEach_skip (extRefStatement operName) (fun _ => True) stmt
        (fun _ _ _ _ _ => trivial)
        (fun k _ => extRefStatement_empty_name operName k stmt t c ht hc hl) pre post g trivial⟩

/-- Witness for C13: a reference to `helper` of a class without a name, followed
by a reference to `Base::helper`; only the second one leaves a node and a
connection. -/
theorem extRefStatement_empty_class_name_skip_witness :
    extRefStatement "h" ⟨[⟨"h", .PNT_Operation⟩], []⟩ (baseRefStmt 3 "" "helper") =
      .ok ⟨[⟨"h", .PNT_Operation⟩], []⟩ ∧
    forEach (extRefStatement "h") ⟨[⟨"h", .PNT_Operation⟩], []⟩
        ([] ++ baseRefStmt 3 "" "helper" :: [baseRefStmt 2 "Base" "helper"]) =
      .ok ⟨[⟨"h", .PNT_Operation⟩, ⟨"Base", .PNT_NonMemberVariable⟩], [⟨1, 0⟩]⟩ :=
  ⟨(extRefStatement_empty_class_name_skip "h" (baseRefStmt 3 "" "helper")
      ⟨some ⟨3, ""⟩⟩ ⟨3, ""⟩ rfl rfl rfl).1 _, rfl⟩

/-- C14. Node lookup: `getNode` returns the position `i` exactly when the node at
`i` has the requested name and kind and no earlier node has them (so it is the
first such node, and a node of another kind is never returned), and it
returns nothing exactly when no node of the list has that name and kind. The
lookup is a function of the graph and yields only the position; the node list
and the connection list are not touched. -/
theorem getNode_first_match (g : Graph) (name : String) (nt : PortionNodeTypes) :
    (∀ i, getNode g name nt = some i ↔
      (g.mNodes[i]? = some ⟨name, nt⟩ ∧ ∀ j, j < i → g.mNodes[j]? ≠ some ⟨name, nt⟩)) ∧
    (getNode g name nt = none ↔ ∀ n ∈ g.mNodes, ¬ (n.getNodeType = nt ∧ n.getName = name)) := by
  constructor
  · intro i
    constructor
    · intro h
      refine ⟨findNode_getElem _ _ _ _ h, fun j hj hget => ?_⟩
      have := findNode_first _ _ _ _ _ h hget
      omega
    · rintro ⟨hget, hfirst⟩
      obtain ⟨k, hk⟩ := findNode_of_mem name nt g.mNodes (List.getElem?_mem hget)
      have hle := findNode_first _ _ _ _ _ hk hget
      rcases Nat.lt_or_ge k i with hlt | hge
      · exact absurd (findNode_getElem _ _ _ _ hk) (hfirst k hlt)
      · have : k = i := by omega
        rw [getNode, hk, this]
  · rw [getNode, findNode_none_iff]
    constructor
    · rintro hnot ⟨n, k⟩ hn ⟨rfl, rfl⟩
      exact hnot hn
    · intro hall hmem
      exact hall _ hmem ⟨rfl, rfl⟩

/-- Witness for C14: with an attribute `x` and two operations `x`, the lookup of
the operation `x` gives position 1, the first of the two, and the lookup of
an external reference `x` gives nothing. -/
theorem getNode_first_match_witness :
    getNode ⟨[⟨"x", .PNT_Attribute⟩, ⟨"x", .PNT_Operation⟩, ⟨"x", .PNT_Operation⟩], []⟩
        "x" .PNT_Operation = some 1 ∧
    getNode ⟨[⟨"x", .PNT_Attribute⟩, ⟨"x", .PNT_Operation⟩, ⟨"x", .PNT_Operation⟩], []⟩
        "x" .PNT_NonMemberVariable = none :=
  ⟨((getNode_first_match
      ⟨[⟨"x", .PNT_Attribute⟩, ⟨"x", .PNT_Operation⟩, ⟨"x", .PNT_Operation⟩], []⟩
      "x" .PNT_Operation).1 1).mpr ⟨rfl, fun j hj => by
        have : j = 0 := by omega
        subst this
        decide⟩,
    (getNode_first_match
      ⟨[⟨"x", .PNT_Attribute⟩, ⟨"x", .PNT_Operation⟩, ⟨"x", .PNT_Operation⟩], []⟩
      "x" .PNT_NonMemberVariable).2.mpr (by decide)⟩

/-- C11. Unresolved callee is non-fatal: a Call statement whose declared class is
the class being built but whose function name matches no operation of that
class leaves the graph as it is (no connection, node list unchanged, no
fault); the statement loop of its operation gives the same result as without
it; and `addConnections` for the class gives the same result as for the class
with that statement removed, so every later statement and every later
operation gets its connections as if the statement were not there. -/
theorem unresolved_callee_is_skipped (cls : ModelClassifier) (stmt : ModelStatement)
    (hcall : isCallOn cls stmt)
    (hnone : cls.getOperationAnyConst stmt.getFuncName false = none) :
    (∀ caller g, operationBody cls caller g stmt = .ok g) ∧
    (∀ caller g u (pre post : List ModelStatement),
      addOperationConnections g cls ⟨pre ++ stmt :: post, u⟩ caller =
        addOperationConnections g cls ⟨pre ++ post, u⟩ caller) ∧
    (∀ (cls1 : ModelClassifier) (name : String) u (pre post : List ModelStatement)
        (before after : List ModelOperation) (g : Graph),
      cls1.addr = cls.addr → cls1.getAttributes = cls.getAttributes →
      cls.getOperations = before ++ ⟨name, ⟨pre ++ stmt :: post, u⟩⟩ :: after →
      cls1.getOperations = before ++ ⟨name, ⟨pre ++ post, u⟩⟩ :: after →
      addConnections g cls = addConnections g cls1) := by
  have hskip : ∀ caller g u (pre post : List ModelStatement),
      addOperationConnections g cls ⟨pre ++ stmt :: post, u⟩ caller =
        addOperationConnections g cls ⟨pre ++ post, u⟩ caller := by
    intro caller g u pre post
    exact forEach_skip (operationBody cls caller) (fun _ => True) stmt
      (fun _ _ _ _ _ => trivial)
      (fun k _ => operationBody_unresolved cls caller k stmt hcall hnone) pre post g trivial
  refine ⟨fun caller g => operationBody_unresolved cls caller g stmt hcall hnone, hskip, ?_⟩
  intro cls1 name u pre post before after g haddr hattrs hops hops1
  have hnames : ∀ n, (cls.getOperationAnyConst n false).map (·.getName) =
      (cls1.getOperationAnyConst n false).map (·.getName) := by
    intro n
    unfold ModelClassifier.getOperationAnyConst
    rw [hops, hops1]
    exact find_name_congr ⟨name, ⟨pre ++ stmt :: post, u⟩⟩ ⟨name, ⟨pre ++ post, u⟩⟩ rfl n
      before after
  have hattrLoop : ∀ (k : Graph) (attr : ModelAttribute),
      addAttrOperConnections k attr.getName cls.getOperations =
        addAttrOperConnections k attr.getName cls1.getOperations := by
    intro k attr
    unfold addAttrOperConnections
    rw [hops, hops1]
    exact forEach_congr_at (attrOperBody attr.getName) (attrOperBody attr.getName)
      ⟨name, ⟨pre ++ stmt :: post, u⟩⟩ ⟨name, ⟨pre ++ post, u⟩⟩ (fun _ _ => rfl)
      (fun k2 => attrOperBody_congr attr.getName k2 _ _ rfl rfl) before after k
  have hcallBody : ∀ (k : Graph) (oper : ModelOperation),
      addOperationConnections k cls oper.getStatements (getNode k oper.getName .PNT_Operation) =
        addOperationConnections k cls1 oper.getStatements
          (getNode k oper.getName .PNT_Operation) := by
    intro k oper
    unfold addOperationConnections
    have : operationBody cls (getNode k oper.getName .PNT_Operation) =
        operationBody cls1 (getNode k oper.getName .PNT_Operation) :=
      funext fun k2 => funext fun x => operationBody_congr cls cls1 haddr hnames _ k2 x
    rw [this]
  unfold addConnections
  have e1 : (fun (k : Graph) (attr : ModelAttribute) =>
        addAttrOperConnections k attr.getName cls.getOperations) =
      (fun (k : Graph) (attr : ModelAttribute) =>
        addAttrOperConnections k attr.getName cls1.getOperations) :=
    funext fun k => funext fun attr => hattrLoop k attr
  rw [e1, hattrs]
  cases forEach (fun (k : Graph) (attr : ModelAttribute) =>
      addAttrOperConnections k attr.getName cls1.getOperations) g cls.getAttributes with
  | error e => rfl
  | ok g2 =>
    simp only
    rw [hops, hops1]
    refine forEach_congr_at _ _ ⟨name, ⟨pre ++ stmt :: post, u⟩⟩ ⟨name, ⟨pre ++ post, u⟩⟩
      hcallBody (fun k => ?_) before after g2
    rw [← hcallBody]
    exact hskip _ k u pre post

/-- Witness for C11: `g` calls `missing` and then `f`; the call of `f` still gives
the connection from `f` to `g`, and the result is that of the class without
the call of `missing`. -/
theorem unresolved_callee_is_skipped_witness :
    addConnections ⟨[⟨"f", .PNT_Operation⟩, ⟨"g", .PNT_Operation⟩], []⟩ unresolvedClass =
      addConnections ⟨[⟨"f", .PNT_Operation⟩, ⟨"g", .PNT_Operation⟩], []⟩ resolvedClass ∧
    clearAndAddClass (modelOf unresolvedClass) Graph.empty "C" =
      .ok ⟨[⟨"f", .PNT_Operation⟩, ⟨"g", .PNT_Operation⟩], [⟨0, 1⟩]⟩ :=
  ⟨(unresolved_callee_is_skipped unresolvedClass (callStmt 1 "C" "missing")
      ⟨rfl, ⟨some ⟨1, "C"⟩⟩, ⟨1, "C"⟩, rfl, rfl, rfl⟩ rfl).2.2 resolvedClass "g"
      (fun _ => false) [] [callStmt 1 "C" "f"] [⟨"f", noStatements⟩] []
      ⟨[⟨"f", .PNT_Operation⟩, ⟨"g", .PNT_Operation⟩], []⟩ rfl rfl rfl rfl, rfl⟩

/-- C15. The external-reference pass gets or creates its node: for a qualifying
statement with external class name `B` (base-class member reference, function
name not an Operation node, declared class named `B`, `B` non-empty) in an
operation whose node is at `j`: if a node `(B, PNT_NonMemberVariable)` is at
`i`, the node list is not grown and the connection `(i, j)` is recorded;
otherwise exactly that node is appended and the recorded supplier index is
the new last index. Consequently a build never makes a second
external-reference node of a name: if the graph had at most one such node per
name before the call (as a new graph has), so has the result. -/
theorem extRefStatement_get_or_create :
    (∀ (operName : String) (g : Graph) (stmt : ModelStatement) (t : ModelTypeRef)
        (c : ModelClassifierRef) (j : Nat),
      stmt.hasBaseClassMemberRef = true →
      (⟨stmt.getFuncName, .PNT_Operation⟩ : PortionNode) ∉ g.mNodes →
      stmt.getDeclType = some t → t.getClass = some c → 0 < c.name.length →
      getNode g operName .PNT_Operation = some j →
      (∀ i, getNode g c.name .PNT_NonMemberVariable = some i →
        extRefStatement operName g stmt = .ok ⟨g.mNodes, g.mConnections ++ [⟨i, j⟩]⟩) ∧
      (getNode g c.name .PNT_NonMemberVariable = none →
        extRefStatement operName g stmt =
          .ok ⟨g.mNodes ++ [⟨c.name, .PNT_NonMemberVariable⟩],
            g.mConnections ++ [⟨g.mNodes.length, j⟩]⟩)) ∧
    (∀ (mModel : ModelData) (g0 : Graph) (classname : String) (g : Graph),
      clearAndAddClass mModel g0 classname = .ok g →
      (∀ b, g0.mNodes.count ⟨b, .PNT_NonMemberVariable⟩ ≤ 1) →
      ∀ b, g.mNodes.count ⟨b, .PNT_NonMemberVariable⟩ ≤ 1) := by
  constructor
  · intro operName g stmt t c j hb hf ht hc hl hj
    have heq := extRefStatement_qualifying operName g stmt t c j hb hf ht hc hl hj
    constructor
    · intro i hi
      rw [getNode] at hi
      rw [heq, hi]
    · intro hi
      rw [getNode] at hi
      rw [heq, hi]
  · intro mModel g0 classname g h hq
    cases hT : mModel.findType classname with
    | none =>
      simp [clearAndAddClass, hT] at h
      exact h ▸ hq
    | some type =>
      cases hC : type.getClass with
      | none =>
        simp [clearAndAddClass, hT, hC] at h
        exact h ▸ hq
      | some cls =>
        rw [clearAndAddClass_class mModel g0 classname type cls hT hC] at h
        cases h1 : addExternalReferences (addClassNodes g0 cls) cls with
        | error e => simp [h1] at h
        | ok g1 =>
          simp only [h1] at h
          have hstart : ∀ b, (addClassNodes g0 cls).mNodes.count ⟨b, .PNT_NonMemberVariable⟩ ≤ 1 := by
            intro b
            rw [addClassNodes_eq]
            simp only [List.count_append, count_classNodes, Nat.add_zero]
            exact hq b
          have hext : ∀ b, g1.mNodes.count ⟨b, .PNT_NonMemberVariable⟩ ≤ 1 :=
            forEach_invariant extRefOperation
              (fun k => ∀ b, k.mNodes.count ⟨b, .PNT_NonMemberVariable⟩ ≤ 1) cls.getOperations
              (fun k oper k1 _ hk hbk =>
                forEach_invariant (extRefStatement oper.getName)
                  (fun k => ∀ b, k.mNodes.count ⟨b, .PNT_NonMemberVariable⟩ ≤ 1)
                  oper.getStatements.stmts
                  (fun k2 stmt k3 _ hk2 hb2 =>
                    extRefStatement_count oper.getName k2 k3 stmt hb2 hk2)
                  k k1 hk hbk)
              _ g1 hstart h1
          rw [addConnections_ok cls g1 g h]
          exact hext

/-- Witness for C15: the first reference to `Base` appends the node at the new
last index 1, a second one reuses it, and in the whole build three references
from two operations give one `Base` node. -/
theorem extRefStatement_get_or_create_witness :
    extRefStatement "h" ⟨[⟨"h", .PNT_Operation⟩], []⟩ (baseRefStmt 2 "Base" "helper") =
      .ok ⟨[⟨"h", .PNT_Operation⟩, ⟨"Base", .PNT_NonMemberVariable⟩], [⟨1, 0⟩]⟩ ∧
    extRefStatement "h" ⟨[⟨"h", .PNT_Operation⟩, ⟨"Base", .PNT_NonMemberVariable⟩], [⟨1, 0⟩]⟩
        (baseRefStmt 2 "Base" "other") =
      .ok ⟨[⟨"h", .PNT_Operation⟩, ⟨"Base", .PNT_NonMemberVariable⟩], [⟨1, 0⟩, ⟨1, 0⟩]⟩ ∧
    clearAndAddClass (modelOf twoRefsClass) Graph.empty "C" =
      .ok ⟨[⟨"h", .PNT_Operation⟩, ⟨"k", .PNT_Operation⟩, ⟨"Base", .PNT_NonMemberVariable⟩],
        [⟨2, 0⟩, ⟨2, 0⟩, ⟨2, 1⟩]⟩ ∧
    List.count (⟨"Base", .PNT_NonMemberVariable⟩ : PortionNode)
      [⟨"h", .PNT_Operation⟩, ⟨"k", .PNT_Operation⟩, ⟨"Base", .PNT_NonMemberVariable⟩] ≤ 1 :=
  ⟨(extRefStatement_get_or_create.1 "h" ⟨[⟨"h", .PNT_Operation⟩], []⟩
      (baseRefStmt 2 "Base" "helper") ⟨some ⟨2, "Base"⟩⟩ ⟨2, "Base"⟩ 0 rfl (by decide) rfl rfl
      (by decide) rfl).2 rfl,
    (extRefStatement_get_or_create.1 "h"
      ⟨[⟨"h", .PNT_Operation⟩, ⟨"Base", .PNT_NonMemberVariable⟩], [⟨1, 0⟩]⟩
      (baseRefStmt 2 "Base" "other") ⟨some ⟨2, "Base"⟩⟩ ⟨2, "Base"⟩ 0 rfl (by decide) rfl rfl
      (by decide) rfl).1 1 rfl,
    rfl,
    extRefStatement_get_or_create.2 (modelOf twoRefsClass) Graph.empty "C"
      ⟨[⟨"h", .PNT_Operation⟩, ⟨"k", .PNT_Operation⟩, ⟨"Base", .PNT_NonMemberVariable⟩],
        [⟨2, 0⟩, ⟨2, 0⟩, ⟨2, 1⟩]⟩ rfl (fun _ => Nat.zero_le _) "Base"⟩

/-- C16. Append-only, stable numbering during a build: each step of the
external-reference pass, and the pass as a whole, leaves the node list and the
connection list it found as prefixes of the new ones, so every position keeps
its node to the end of the pass; `addConnections` leaves the node list
unchanged and only appends to the connection list. -/
theorem build_is_append_only :
    (∀ (operName : String) (g g1 : Graph) (stmt : ModelStatement),
      extRefStatement operName g stmt = .ok g1 →
      g.mNodes <+: g1.mNodes ∧ g.mConnections <+: g1.mConnections) ∧
    (∀ (cls : ModelClassifier) (g g1 : Graph),
      addExternalReferences g cls = .ok g1 →
      g.mNodes <+: g1.mNodes ∧ g.mConnections <+: g1.mConnections ∧
      ∀ (i : Nat) (n : PortionNode), g.mNodes[i]? = some n → g1.mNodes[i]? = some n) ∧
    (∀ (cls : ModelClassifier) (g g1 : Graph),
      addConnections g cls = .ok g1 →
      g1.mNodes = g.mNodes ∧ g.mConnections <+: g1.mConnections) := by
  refine ⟨fun operName g g1 stmt h => extRefStatement_extends operName g g1 stmt h, ?_, ?_⟩
  · intro cls g g1 h
    have he := addExternalReferences_extends cls g g1 h
    exact ⟨he.1, he.2, fun i n hi => prefix_getElem _ _ he.1 i n hi⟩
  · intro cls g g1 h
    rw [addConnections_ok cls g g1 h]
    exact ⟨rfl, by simp [List.append_assoc]⟩

/-- Witness for C16: the external-reference pass on the populated graph of
`twoRefsClass` appends the `Base` node after `h` and `k`, and `addConnections`
on the sample graph without connections keeps its four nodes. -/
theorem build_is_append_only_witness :
    ([⟨"h", .PNT_Operation⟩, ⟨"k", .PNT_Operation⟩] : List PortionNode) <+:
      [⟨"h", .PNT_Operation⟩, ⟨"k", .PNT_Operation⟩, ⟨"Base", .PNT_NonMemberVariable⟩] ∧
    (⟨sampleGraph.mNodes, [⟨0, 2⟩, ⟨2, 3⟩]⟩ : Graph).mNodes = sampleGraph.mNodes :=
  ⟨(build_is_append_only.2.1 twoRefsClass
      ⟨[⟨"h", .PNT_Operation⟩, ⟨"k", .PNT_Operation⟩], []⟩
      ⟨[⟨"h", .PNT_Operation⟩, ⟨"k", .PNT_Operation⟩, ⟨"Base", .PNT_NonMemberVariable⟩],
        [⟨2, 0⟩, ⟨2, 0⟩, ⟨2, 1⟩]⟩ rfl).1,
    (build_is_append_only.2.2 sampleClass ⟨sampleGraph.mNodes, []⟩
      ⟨sampleGraph.mNodes, [⟨0, 2⟩, ⟨2, 3⟩]⟩ rfl).1⟩

/-- C17. Connection order follows pass order: after a completed build of a class
on a newly constructed graph the connection list is the concatenation of the
external-reference connections (operation by operation in declaration order,
statement by statement), the attribute-usage connections (attribute by
attribute, and operation by operation for each), and the intra-class call
connections (caller by caller, statement by statement). The suppliers of the
first part are external-reference nodes, those of the second Attribute nodes,
those of the third Operation nodes, so no connection of a later pass stands
before one of an earlier pass. -/
theorem connections_follow_pass_order (mModel : ModelData) (classname : String)
    (type : ModelType) (cls : ModelClassifier) (g : Graph)
    (hT : mModel.findType classname = some type) (hC : type.getClass = some cls)
    (h : clearAndAddClass mModel Graph.empty classname = .ok g) :
    g.mConnections =
      cls.getOperations.flatMap (fun oper =>
        oper.getStatements.stmts.flatMap (extRefConns g.mNodes oper.getName)) ++
      cls.getAttributes.flatMap (fun attr =>
        cls.getOperations.flatMap (attrOperConns g.mNodes attr.getName)) ++
      cls.getOperations.flatMap (fun oper =>
        oper.getStatements.stmts.flatMap
          (callConns cls g.mNodes (getNode g oper.getName .PNT_Operation))) ∧
    (∀ c ∈ extPassConns cls g.mNodes,
      ∃ b, g.mNodes[c.supplierIndex]? = some ⟨b, .PNT_NonMemberVariable⟩) ∧
    (∀ c ∈ attrPassConns cls g.mNodes,
      ∃ a, g.mNodes[c.supplierIndex]? = some ⟨a, .PNT_Attribute⟩) ∧
    (∀ c ∈ callPassConns cls g.mNodes,
      ∃ f, g.mNodes[c.supplierIndex]? = some ⟨f, .PNT_Operation⟩) := by
  refine ⟨clearAndAddClass_conns mModel classname type cls g hT hC h, ?_, ?_, ?_⟩
  · intro c hc
    obtain ⟨oper, -, stmt, -, hmem⟩ := (mem_extPassConns cls g.mNodes c).mp hc
    obtain ⟨-, -, t, cl, -, -, -, hs, -⟩ := (mem_extRefConns _ _ _ c).mp hmem
    exact ⟨cl.name, findNode_getElem _ _ _ _ hs⟩
  · intro c hc
    obtain ⟨attr, -, oper, -, -, hs, -⟩ := (mem_attrPassConns cls g.mNodes c).mp hc
    exact ⟨attr.getName, findNode_getElem _ _ _ _ hs⟩
  · intro c hc
    obtain ⟨caller, -, stmt, -, -, ⟨o, -, hs⟩, -⟩ := (mem_callPassConns cls g.mNodes c).mp hc
    exact ⟨o.getName, findNode_getElem _ _ _ _ hs⟩

/-- Witness for C17: attribute `a`, operation `h` referring to `Base::helper`,
operation `g` using `a` and calling `h`; the connections come out as
`(Base, h)`, then `(a, g)`, then `(h, g)`. -/
theorem connections_follow_pass_order_witness :
    clearAndAddClass (modelOf threePassClass) Graph.empty "C" =
      .ok ⟨[⟨"a", .PNT_Attribute⟩, ⟨"h", .PNT_Operation⟩, ⟨"g", .PNT_Operation⟩,
        ⟨"Base", .PNT_NonMemberVariable⟩], [⟨3, 1⟩, ⟨0, 2⟩, ⟨1, 2⟩]⟩ ∧
    ([⟨3, 1⟩, ⟨0, 2⟩, ⟨1, 2⟩] : List PortionConnection) =
      [⟨3, 1⟩] ++ [⟨0, 2⟩] ++ [⟨1, 2⟩] :=
  ⟨rfl,
    (connections_follow_pass_order (modelOf threePassClass) "C" ⟨some threePassClass⟩
      threePassClass
      ⟨[⟨"a", .PNT_Attribute⟩, ⟨"h", .PNT_Operation⟩, ⟨"g", .PNT_Operation⟩,
        ⟨"Base", .PNT_NonMemberVariable⟩], [⟨3, 1⟩, ⟨0, 2⟩, ⟨1, 2⟩]⟩ rfl rfl rfl).1⟩

/-- C18. First match by name under overloading: after a completed build of a
class on a newly constructed graph, every index stored in a connection, as
supplier or as consumer, holds a node that no smaller index holds; so a node
that repeats the name and kind of an earlier node (a later overload) is
neither supplier nor consumer of any connection. -/
theorem connections_use_first_node (mModel : ModelData) (classname : String)
    (type : ModelType) (cls : ModelClassifier) (g : Graph)
    (hT : mModel.findType classname = some type) (hC : type.getClass = some cls)
    (h : clearAndAddClass mModel Graph.empty classname = .ok g) :
    (∀ c ∈ g.mConnections, ∀ idx, idx = c.supplierIndex ∨ idx = c.consumerIndex →
      ∃ n, g.mNodes[idx]? = some n ∧ ∀ j, j < idx → g.mNodes[j]? ≠ some n) ∧
    (∀ (k j : Nat) (n : PortionNode), j < k → g.mNodes[j]? = some n → g.mNodes[k]? = some n →
      ∀ c ∈ g.mConnections, c.supplierIndex ≠ k ∧ c.consumerIndex ≠ k) := by
  have first : ∀ c ∈ g.mConnections, ∀ idx, idx = c.supplierIndex ∨ idx = c.consumerIndex →
      ∃ n, g.mNodes[idx]? = some n ∧ ∀ j, j < idx → g.mNodes[j]? ≠ some n := by
    intro c hc idx hidx
    obtain ⟨sname, skind, cname, hs, hk⟩ :=
      clearAndAddClass_conn_kinds mModel classname type cls g hT hC h c hc
    rcases hidx with rfl | rfl
    · refine ⟨⟨sname, skind⟩, findNode_getElem _ _ _ _ hs, fun j hj hget => ?_⟩
      have := findNode_first _ _ _ _ _ hs hget
      omega
    · refine ⟨⟨cname, .PNT_Operation⟩, findNode_getElem _ _ _ _ hk, fun j hj hget => ?_⟩
      have := findNode_first _ _ _ _ _ hk hget
      omega
  refine ⟨first, ?_⟩
  intro k j n hjk hj hk c hc
  constructor
  · intro e
    obtain ⟨m, hm, hfirst⟩ := first c hc k (Or.inl e.symm)
    rw [hk] at hm
    cases hm
    exact hfirst j hjk hj
  · intro e
    obtain ⟨m, hm, hfirst⟩ := first c hc k (Or.inr e.symm)
    rw [hk] at hm
    cases hm
    exact hfirst j hjk hj

/-- Witness for C18: two operations named `f`, both using `a`, the second calling
`f`; all three connections end at position 1, the first `f`, and none touches
position 2. -/
theorem connections_use_first_node_witness :
    clearAndAddClass (modelOf overloadCallClass) Graph.empty "C" =
      .ok ⟨[⟨"a", .PNT_Attribute⟩, ⟨"f", .PNT_Operation⟩, ⟨"f", .PNT_Operation⟩],
        [⟨0, 1⟩, ⟨0, 1⟩, ⟨1, 1⟩]⟩ ∧
    ∀ c ∈ ([⟨0, 1⟩, ⟨0, 1⟩, ⟨1, 1⟩] : List PortionConnection),
      c.supplierIndex ≠ 2 ∧ c.consumerIndex ≠ 2 :=
  ⟨rfl,
    (connections_use_first_node (modelOf overloadCallClass) "C" ⟨some overloadCallClass⟩
      overloadCallClass
      ⟨[⟨"a", .PNT_Attribute⟩, ⟨"f", .PNT_Operation⟩, ⟨"f", .PNT_Operation⟩],
        [⟨0, 1⟩, ⟨0, 1⟩, ⟨1, 1⟩]⟩ rfl rfl rfl).2 2 1 ⟨"f", .PNT_Operation⟩ (by decide) rfl rfl⟩

/-- C19. Connections are recorded once per qualifying statement and are not
deduplicated: for a class with pairwise distinct operation names, after a
completed build on a newly constructed graph, the number of connections from
the Operation node of `f` to the Operation node of `g` is the number of Call
statements of `g` declared on the class itself with function name `f` (for
`g = f` these are self-loops); the number of connections from the
external-reference node `B` to the Operation node of `h` is the number of
qualifying base-class member reference statements of `h` that resolve to `B`;
and when the attribute names are pairwise distinct too, each connection from
an Attribute node to an Operation node occurs at most once. -/
theorem connections_counted_per_statement (mModel : ModelData) (classname : String)
    (type : ModelType) (cls : ModelClassifier) (g : Graph)
    (hT : mModel.findType classname = some type) (hC : type.getClass = some cls)
    (h : clearAndAddClass mModel Graph.empty classname = .ok g)
    (hd : (cls.getOperations.map (·.getName)).Nodup) :
    (∀ callee ∈ cls.getOperations, ∀ caller ∈ cls.getOperations,
      g.connectionCount ⟨callee.getName, .PNT_Operation⟩ ⟨caller.getName, .PNT_Operation⟩ =
        caller.getStatements.stmts.countP
          (fun s => decide (isCallOn cls s ∧ s.getFuncName = callee.getName))) ∧
    (∀ (b : String), ∀ oper ∈ cls.getOperations,
      g.connectionCount ⟨b, .PNT_NonMemberVariable⟩ ⟨oper.getName, .PNT_Operation⟩ =
        oper.getStatements.stmts.countP (fun s => decide (IsExternalRefTo cls b s))) ∧
    ((cls.getAttributes.map (·.getName)).Nodup →
      ∀ attr ∈ cls.getAttributes, ∀ oper ∈ cls.getOperations,
        g.connectionCount ⟨attr.getName, .PNT_Attribute⟩ ⟨oper.getName, .PNT_Operation⟩ ≤ 1) := by
  obtain ⟨hmem, hoperNode, hpresent⟩ :=
    clearAndAddClass_nodes_facts mModel classname type cls g hT hC h
  have hconn := clearAndAddClass_conns mModel classname type cls g hT hC h
  refine ⟨?_, ?_, ?_⟩
  · intro callee hcallee caller hcaller
    rw [Graph.connectionCount, hconn, List.countP_append, List.countP_append,
      countP_joins_zero_of_supplier g.mNodes (extPassConns cls g.mNodes) _ _
        .PNT_NonMemberVariable (by simp) (extPassConns_supplier cls g.mNodes),
      countP_joins_zero_of_supplier g.mNodes (attrPassConns cls g.mNodes) _ _
        .PNT_Attribute (by simp) (attrPassConns_supplier cls g.mNodes),
      callPassConns_count cls g.mNodes hmem hd callee hcallee caller hcaller]
    omega
  · intro b oper hoper
    rw [Graph.connectionCount, hconn, List.countP_append, List.countP_append,
      countP_joins_zero_of_supplier g.mNodes (attrPassConns cls g.mNodes) _ _
        .PNT_Attribute (by simp) (attrPassConns_supplier cls g.mNodes),
      countP_joins_zero_of_supplier g.mNodes (callPassConns cls g.mNodes) _ _
        .PNT_Operation (by simp) (callPassConns_supplier cls g.mNodes),
      extPassConns_count cls g.mNodes hmem hoperNode hpresent hd b oper hoper]
    omega
  · intro hda attr hattr oper hoper
    rw [Graph.connectionCount, hconn, List.countP_append, List.countP_append,
      countP_joins_zero_of_supplier g.mNodes (extPassConns cls g.mNodes) _ _
        .PNT_NonMemberVariable (by simp) (extPassConns_supplier cls g.mNodes),
      countP_joins_zero_of_supplier g.mNodes (callPassConns cls g.mNodes) _ _
        .PNT_Operation (by simp) (callPassConns_supplier cls g.mNodes)]
    simpa using attrPassConns_count_le cls g.mNodes hda hd attr hattr oper hoper

/-- Witness for C19: `g` calls `f` twice and refers to `Base` twice, `f` calls
itself once and uses `a`: two connections `(f, g)`, one self-loop `(f, f)`,
two connections `(Base, g)`, one connection `(a, f)`. -/
theorem connections_counted_per_statement_witness :
    clearAndAddClass (modelOf repeatClass) Graph.empty "C" = .ok repeatGraph ∧
    repeatGraph.connectionCount ⟨"f", .PNT_Operation⟩ ⟨"g", .PNT_Operation⟩ = 2 ∧
    repeatGraph.connectionCount ⟨"f", .PNT_Operation⟩ ⟨"f", .PNT_Operation⟩ = 1 ∧
    repeatGraph.connectionCount ⟨"Base", .PNT_NonMemberVariable⟩ ⟨"g", .PNT_Operation⟩ = 2 ∧
    repeatGraph.connectionCount ⟨"a", .PNT_Attribute⟩ ⟨"f", .PNT_Operation⟩ ≤ 1 :=
  ⟨rfl,
    ((connections_counted_per_statement (modelOf repeatClass) "C" ⟨some repeatClass⟩
      repeatClass repeatGraph rfl rfl rfl (by decide)).1 operRecF (List.mem_cons_self _ _)
      operRepG (List.mem_cons_of_mem _ (List.mem_cons_self _ _))).trans (by decide),
    ((connections_counted_per_statement (modelOf repeatClass) "C" ⟨some repeatClass⟩
      repeatClass repeatGraph rfl rfl rfl (by decide)).1 operRecF (List.mem_cons_self _ _)
      operRecF (List.mem_cons_self _ _)).trans (by decide),
    ((connections_counted_per_statement (modelOf repeatClass) "C" ⟨some repeatClass⟩
      repeatClass repeatGraph rfl rfl rfl (by decide)).2.1 "Base" operRepG
      (List.mem_cons_of_mem _ (List.mem_cons_self _ _))).trans (by decide),
    (connections_counted_per_statement (modelOf repeatClass) "C" ⟨some repeatClass⟩
      repeatClass repeatGraph rfl rfl rfl (by decide)).2.2 (by decide) ⟨"a"⟩
      (List.mem_cons_self _ _) operRecF (List.mem_cons_self _ _)⟩

end PortionGraph
